import Mathlib

/-!
Shallow embedding of the scalardb storage engine (src/tree.rs, src/table.rs,
src/datatype.rs, src/statement.rs) for checking the specification's claims.

The file is organized as definitions first (the embedding of the program and
the claim scenarios), followed by the theorems (supporting lemmas, then one
theorem per claim with its witness where required).

Modelling conventions:
* Rust `u8` buffers (`[u8; 4096]`, `File` contents) are modelled as total
  functions `Nat → Nat`; every write stores the byte value `% 256`, and every
  multi-byte read reduces each byte `% 256`, so buffers behave as byte arrays.
* Multi-byte integers are read/written little-endian.  The source mixes
  `to_ne_bytes`/`from_ne_bytes` with `from_le_bytes`; on the little-endian
  machines the program targets these coincide, and the embedding fixes
  little-endian throughout.
* `i64` values are modelled as `Int`, stored as their two's complement
  residue `% 2^64` and read back by subtracting `2^64` when the bit-63 is set.
* Rust `String` values are modelled as byte lists (`List Nat`); the scenarios
  exercised only store ASCII bytes, for which `String::from_utf8(..).unwrap()`
  is the identity on the byte content, so UTF-8 validity checking is omitted.
* Rust panics (out-of-bounds indexing, `unwrap` on `None`, division by zero,
  `panic!()`) are modelled as the distinguished error `Err.panicked`; fallible
  operations return `Except Err _` or `Option _`.
-/

namespace ScalarDB

/-- Read `n` bytes of `f` starting at `off` as a little-endian natural. -/
def readLE (f : Nat → Nat) (off : Nat) : Nat → Nat
  | 0 => 0
  | n + 1 => f off % 256 + 256 * readLE f (off + 1) n

/-- Write the `n` little-endian bytes of `v` into `f` starting at `off`. -/
def writeLE (f : Nat → Nat) (off : Nat) : Nat → Nat → (Nat → Nat)
  | 0, _ => f
  | n + 1, v => writeLE (fun j => if j = off then v % 256 else f j) (off + 1) n (v / 256)

/-- Write the byte list `bs` into `f` starting at `off`. -/
def writeBytes (f : Nat → Nat) (off : Nat) : List Nat → (Nat → Nat)
  | [] => f
  | b :: bs => writeBytes (fun j => if j = off then b % 256 else f j) (off + 1) bs

/-- Read `n` consecutive bytes starting at `off` as a list. -/
def readList (f : Nat → Nat) (off : Nat) : Nat → List Nat
  | 0 => []
  | n + 1 => f off % 256 :: readList f (off + 1) n

/-- The two scalar data types of the engine (src/datatype.rs). `String size`
is a fixed slot of `size` bytes (1 length byte + up to `size - 1` payload). -/
inductive DataType where
  | String : Nat → DataType
  | Number : DataType
  deriving DecidableEq, Repr

/-- Typed scalar values (src/datatype.rs); Rust `String` is a byte list,
`i64` is an `Int`. -/
inductive ScalarValue where
  | String : List Nat → ScalarValue
  | Number : Int → ScalarValue
  deriving DecidableEq, Repr

/-- Ordered field list (src/datatype.rs `Schema`, field `feilds` kept with the
source's spelling); names are byte lists. -/
structure Schema where
  feilds : List (List Nat × DataType)
  deriving DecidableEq, Repr

/-- `Schema::row_size` (src/datatype.rs): sum of field slot widths. -/
def Schema.row_size (s : Schema) : Nat :=
  (s.feilds.map (fun x => match x.2 with
    | DataType.String size => size
    | DataType.Number => 8)).sum

/-! ### Leaf nodes (src/tree.rs)

Header layout constants from src/tree.rs: common header = node type (1 byte,
offset 0) + is-root (1 byte, offset 1) + parent pointer (4 bytes, offset 2),
so `COMMON_NODE_HEADER_SIZE = 6`; leaf header adds `num_cells` (4 bytes,
offset 6) and `next_leaf` (4 bytes, offset 10), so `HEADER_SIZE = 14` and
`KEY_SIZE = 4`. -/
def COMMON_NODE_HEADER_SIZE : Nat := 6

def PARENT_POINTER_OFFSET : Nat := 2

/-- `LeafNode` (src/tree.rs): a 4096-byte buffer. -/
structure LeafNode where
  bytes : Nat → Nat

namespace LeafNode

def NUM_CELLS_OFFSET : Nat := COMMON_NODE_HEADER_SIZE

def NEXT_LEAF_OFFSET : Nat := NUM_CELLS_OFFSET + 4

def HEADER_SIZE : Nat := NEXT_LEAF_OFFSET + 4

def KEY_SIZE : Nat := 4

/-- `LeafNode::new`: zero-filled buffer. -/
def new : LeafNode := ⟨fun _ => 0⟩

/-- `LeafNode::cell_size` (takes `&self` in the source but ignores it). -/
def cell_size (value_size : Nat) : Nat := KEY_SIZE + value_size

/-- `LeafNode::max_cells` (takes `&self` in the source but ignores it). -/
def max_cells (value_size : Nat) : Nat := (4096 - HEADER_SIZE) / cell_size value_size

/-- `LeafNode::parent`. -/
def parent (l : LeafNode) : Nat := readLE l.bytes PARENT_POINTER_OFFSET 4

/-- `LeafNode::set_parent`. -/
def set_parent (l : LeafNode) (val : Nat) : LeafNode :=
  ⟨writeLE l.bytes PARENT_POINTER_OFFSET 4 val⟩

/-- `LeafNode::next_leaf`. -/
def next_leaf (l : LeafNode) : Nat := readLE l.bytes NEXT_LEAF_OFFSET 4

/-- `LeafNode::set_next_leaf`. -/
def set_next_leaf (l : LeafNode) (val : Nat) : LeafNode :=
  ⟨writeLE l.bytes NEXT_LEAF_OFFSET 4 val⟩

/-- `LeafNode::num_cells`. -/
def num_cells (l : LeafNode) : Nat := readLE l.bytes NUM_CELLS_OFFSET 4

/-- `LeafNode::set_num_cells`. -/
def set_num_cells (l : LeafNode) (value : Nat) : LeafNode :=
  ⟨writeLE l.bytes NUM_CELLS_OFFSET 4 value⟩

/-- `LeafNode::key`: the 4-byte key of cell `index`. -/
def key (l : LeafNode) (index value_size : Nat) : Nat :=
  readLE l.bytes (HEADER_SIZE + index * cell_size value_size) 4

/-- `LeafNode::copy_within`: copy the cell at `src` over the cell at `dst`. -/
def copy_within (l : LeafNode) (value_size src dst : Nat) : LeafNode :=
  ⟨fun j =>
    if HEADER_SIZE + dst * cell_size value_size ≤ j ∧
        j < HEADER_SIZE + dst * cell_size value_size + cell_size value_size then
      l.bytes (j - dst * cell_size value_size + src * cell_size value_size)
    else l.bytes j⟩

/-- `new_node.cell_mut(dst_idx, ..).copy_from_slice(src.cell(src_idx, ..))`
as used in the second split loop of `leaf_node_split_and_insert`. -/
def copy_cell_from (dst src : LeafNode) (value_size dst_idx src_idx : Nat) : LeafNode :=
  ⟨fun j =>
    if HEADER_SIZE + dst_idx * cell_size value_size ≤ j ∧
        j < HEADER_SIZE + dst_idx * cell_size value_size + cell_size value_size then
      src.bytes (j - dst_idx * cell_size value_size + src_idx * cell_size value_size)
    else dst.bytes j⟩

end LeafNode

/-- `n` little-endian bytes of `v` as a list. -/
def leBytes : Nat → Nat → List Nat
  | 0, _ => []
  | n + 1, v => v % 256 :: leBytes n (v / 256)

/-- The per-field encoding loop shared by `LeafNode::serialize_row` and
`Page::write_row`: at byte offset `off` of buffer `f`, write each value into
its field slot; `limit` is the exclusive end of the sliceable buffer (the
cell end `base + cell_size` in `serialize_row`, `4096` in `write_row`).
A `FixedString(size)` slot: the Rust code first takes the slice
`bytes[off..off + size]` — a panic (`none`) when `off + size > limit` — then
writes `value.len() as u8` into its byte 0 — a panic when `size = 0` —
followed by the payload capped at `size - 1` bytes (the capping mirrors
`(&mut bytes[1..]).write(value.as_bytes())`, which writes at most the slice
length and never fails).  A `Number` slot: the Rust code slices
`bytes[off..]` — a panic when `off > limit` — and `write`s the 8 little-endian
two's complement bytes, capped at the `limit - off` remaining bytes (a short
write is silent), then advances by 8.  `none` also models the panics on a
value/kind mismatch or an exhausted value iterator
(`values.next().unwrap()` / `let else panic`). -/
def serializeFields (f : Nat → Nat) (off limit : Nat) :
    List (List Nat × DataType) → List ScalarValue → Option (Nat → Nat)
  | [], _ => some f
  | (_, DataType.String size) :: fields, ScalarValue.String v :: vs =>
    if off + size > limit then none
    else if size = 0 then none
    else
      serializeFields
        (writeBytes (fun j => if j = off then v.length % 256 else f j) (off + 1)
          (v.take (size - 1)))
        (off + size) limit fields vs
  | (_, DataType.Number) :: fields, ScalarValue.Number v :: vs =>
    if off > limit then none
    else
      serializeFields (writeBytes f off ((leBytes 8 (v % (2 ^ 64 : Int)).toNat).take (limit - off)))
        (off + 8) limit fields vs
  | _ :: _, _ => none

/-- Total slot width of a field list (`Σ` of `size` / 8), the amount by which
the encoding cursor advances over the whole list. -/
def fieldsSize : List (List Nat × DataType) → Nat
  | [] => 0
  | (_, DataType.String size) :: fields => size + fieldsSize fields
  | (_, DataType.Number) :: fields => 8 + fieldsSize fields

/-- The per-field decoding loop shared by `LeafNode::read_row` and
`Page::read_row`, reading at `base + voff` within a value region of
`value_size` bytes.  Faithful to the source, the offset is *not* advanced for
an empty string (`len == 0` skips `value_offset += size`), and out-of-range
slicing (`none`) models the Rust panic. -/
def readFields (f : Nat → Nat) (base value_size : Nat) :
    List (List Nat × DataType) → Nat → Option (List ScalarValue)
  | [], _ => some []
  | (_, DataType.String size) :: fields, voff =>
    if voff < value_size then
      let len := f (base + voff) % 256
      if len ≠ 0 then
        if voff + len + 1 ≤ value_size then
          (readFields f base value_size fields (voff + size)).map
            (fun rest => ScalarValue.String (readList f (base + voff + 1) len) :: rest)
        else none
      else
        (readFields f base value_size fields voff).map
          (fun rest => ScalarValue.String [] :: rest)
    else none
  | (_, DataType.Number) :: fields, voff =>
    if voff + 8 ≤ value_size then
      (readFields f base value_size fields (voff + 8)).map
        (fun rest =>
          ScalarValue.Number
            (let n := readLE f (base + voff) 8
             if n < 2 ^ 63 then (n : Int) else (n : Int) - 2 ^ 64) :: rest)
    else none

namespace LeafNode

/-- `LeafNode::serialize_row`: write `(key, encoded row)` into cell `index`.
The function starts with `self.cell_mut(index, value_size)`, which slices
`bytes[base..base + cell_size]` — a panic (`none`) when the cell's end
exceeds the 4096-byte buffer; all further slices in the loop are taken
relative to that cell, so their limit is the cell end `base + cell_size`. -/
def serialize_row (l : LeafNode) (index : Nat) (schema : Schema) (key : Nat)
    (values : List ScalarValue) : Option LeafNode :=
  let value_size := schema.row_size
  let base := HEADER_SIZE + index * cell_size value_size
  if base + cell_size value_size > 4096 then none
  else
    match serializeFields (writeLE l.bytes base 4 key) (base + KEY_SIZE)
        (base + cell_size value_size) schema.feilds values with
    | some f => some ⟨f⟩
    | none => none

/-- `LeafNode::read_row`: decode cell `index` into `(key, values)`. -/
def read_row (l : LeafNode) (index : Nat) (schema : Schema) :
    Option (Nat × List ScalarValue) :=
  let value_size := schema.row_size
  let base := HEADER_SIZE + index * cell_size value_size
  (readFields l.bytes (base + KEY_SIZE) value_size schema.feilds 0).map
    (fun values => (readLE l.bytes base 4, values))

/-- The loop of `LeafNode::binary_search` over `[left, right)`.  The first
argument is recursion fuel: the interval halves at every step, so the
initial fuel `num_cells` (an upper bound on `right - left`) is never
exhausted; fuel keeps the recursion structural. -/
def binarySearchAux (l : LeafNode) (target value_size : Nat) :
    Nat → Nat → Nat → Option Nat
  | 0, _, _ => none
  | fuel + 1, left, right =>
    if left < right then
      let mid := left + (right - left) / 2
      if l.key mid value_size < target then
        binarySearchAux l target value_size fuel (mid + 1) right
      else if l.key mid value_size = target then some mid
      else binarySearchAux l target value_size fuel left mid
    else none

/-- `LeafNode::binary_search`: exact-match binary search over the cell keys;
returns `none` on a miss (not the insertion point). -/
def binary_search (l : LeafNode) (target value_size : Nat) : Option Nat :=
  binarySearchAux l target value_size l.num_cells 0 l.num_cells

/-- The shift loop of the non-split insert branch:
`for i in (index..num_cells).rev() { copy_within(i, i + 1) }`.
`shiftRight l vs index cnt` performs the copies for
`i = index + cnt - 1, ..., index` in that (descending) order. -/
def shiftRight (l : LeafNode) (value_size index : Nat) : Nat → LeafNode
  | 0 => l
  | cnt + 1 =>
    shiftRight (l.copy_within value_size (index + cnt) (index + cnt + 1)) value_size index cnt

/-- First split loop of `leaf_node_split_and_insert`
(`for i in 0..left_count`), run for `i = 0, ..., cnt - 1` in order.  Writes
go to `i % left_count` of the original node. -/
def splitLeft (schema : Schema) (insKey : Nat) (values : List ScalarValue)
    (index left_count : Nat) (l : LeafNode) : Nat → Option LeafNode
  | 0 => some l
  | cnt + 1 =>
    match splitLeft schema insKey values index left_count l cnt with
    | none => none
    | some acc =>
      let i := cnt
      let iwn := i % left_count
      if i = index then acc.serialize_row iwn schema insKey values
      else if i > index then some (acc.copy_within schema.row_size (i - 1) iwn)
      else some (acc.copy_within schema.row_size i iwn)

/-- Second split loop of `leaf_node_split_and_insert`
(`for i in left_count..=max_cells`), run for `i = left_count, ...,
left_count + cnt - 1` in order, building `new_node` from the (already
modified) original node `src`. -/
def splitRight (schema : Schema) (insKey : Nat) (values : List ScalarValue)
    (index left_count : Nat) (src new_node : LeafNode) : Nat → Option LeafNode
  | 0 => some new_node
  | cnt + 1 =>
    match splitRight schema insKey values index left_count src new_node cnt with
    | none => none
    | some acc =>
      let i := left_count + cnt
      let iwn := i % left_count
      if i = index then acc.serialize_row iwn schema insKey values
      else if i > index then
        some (copy_cell_from acc src schema.row_size iwn (i - 1))
      else
        some (copy_cell_from acc src schema.row_size iwn i)

/-- `LeafNode::leaf_node_split_and_insert` (src/tree.rs): the insertion index
is `binary_search(key)` with fallback `0` on a miss; below capacity the cells
at or after the index are shifted right and the new cell written in place;
at capacity the `max_cells + 1` logical entries are distributed over the two
loops above and the counts set to `left_count` / `right_count`.  The result
is `some (self', new_node?)`; `none` models a Rust panic inside
`serialize_row`. -/
def leaf_node_split_and_insert (l : LeafNode) (key : Nat) (values : List ScalarValue)
    (schema : Schema) : Option (LeafNode × Option LeafNode) :=
  let value_size := schema.row_size
  let maxCells := max_cells value_size
  let index := (l.binary_search key value_size).getD 0
  let numCells := l.num_cells
  if numCells < maxCells then
    let shifted := shiftRight l value_size index (numCells - index)
    match shifted.serialize_row index schema key values with
    | none => none
    | some l' => some (l'.set_num_cells (numCells + 1), none)
  else
    let new0 := (LeafNode.new.set_parent l.parent).set_next_leaf l.next_leaf
    let right_count := (maxCells + 1) / 2
    let left_count := (maxCells + 1) - right_count
    match splitLeft schema key values index left_count l left_count with
    | none => none
    | some l' =>
      match splitRight schema key values index left_count l' new0
          (maxCells + 1 - left_count) with
      | none => none
      | some new' =>
        some (l'.set_num_cells left_count, some (new'.set_num_cells right_count))

end LeafNode

/-! ### Internal nodes (src/tree.rs)

Internal header: common header (6 bytes) + `num_keys` (4 bytes, offset 6) +
rightmost child pointer (4 bytes, offset 10); `NODE_HEADER_SIZE = 14`,
`NODE_CELL_SIZE = 8` (4-byte child pointer then 4-byte key). -/

/-- Failure outcomes of the engine.  `rowLimit`, `parseError`,
`unrecognizedCommand`, `ioError` and `bincodeError` are the variants of
`errors::Error`; `panicked` models a Rust panic (process abort), which is not
a value of `Error` but is the observable outcome of the call. -/
inductive Err where
  | rowLimit : Err
  | parseError : Err
  | unrecognizedCommand : Err
  | ioError : Err
  | bincodeError : Err
  | panicked : Err
  deriving DecidableEq, Repr

/-- `InternalNode` (src/tree.rs): a 4096-byte buffer. -/
structure InternalNode where
  bytes : Nat → Nat

namespace InternalNode

def NODE_HEADER_SIZE : Nat := COMMON_NODE_HEADER_SIZE + 4 + 4

def NODE_CELL_SIZE : Nat := 8

/-- `InternalNode::key`. -/
def key (n : InternalNode) (index : Nat) : Nat :=
  readLE n.bytes (NODE_HEADER_SIZE + index * NODE_CELL_SIZE + 4) 4

end InternalNode

/-! ### Pager and pages (src/table.rs) -/
def PAGE_SIZE : Nat := 4096

def TABLE_MAX_PAGE : Nat := 100

def HEADER_SPACE : Nat := 4096

/-- The backing file: a length and its byte contents.  Bytes at or beyond
`len` read as 0 (files are zero-extended). -/
structure FileM where
  len : Nat
  data : Nat → Nat

namespace FileM

/-- `File::set_len`: truncate or zero-extend to `n` bytes. -/
def setLen (f : FileM) (n : Nat) : FileM :=
  ⟨n, fun j => if j < n ∧ j < f.len then f.data j else 0⟩

/-- `seek(Start(off))` + `write_all` of `n` bytes produced by `g`: Rust
zero-fills any gap between the old end of file and `off`. -/
def writeAt (f : FileM) (off n : Nat) (g : Nat → Nat) : FileM :=
  ⟨max f.len (off + n),
   fun j => if off ≤ j ∧ j < off + n then g (j - off) % 256
            else if j < f.len then f.data j else 0⟩

/-- `seek(Start(off))` + `read_exact` into a fresh zeroed `n`-byte buffer:
fails with an I/O error if fewer than `n` bytes remain.  The returned reader
is the materialized buffer, so indices `≥ n` are 0 (the Rust buffer has
exactly `n` bytes and every consumer bound-checks against `n`). -/
def readExact (f : FileM) (off n : Nat) : Option (Nat → Nat) :=
  if off + n ≤ f.len then
    some (fun k => if k < n then f.data (off + k) % 256 else 0)
  else none

end FileM

/-- `Page` (src/table.rs): a raw 4096-byte row page. -/
structure Page where
  bytes : Nat → Nat

namespace Page

/-- `Page::new`: zero-filled. -/
def new : Page := ⟨fun _ => 0⟩

/-- `Page::write_row` (src/table.rs): encode `values` at byte offset
`index * row_size`; the per-field slices are taken from the whole 4096-byte
buffer, so the slice limit is 4096; `none` models the slice-bounds panics and
the panics on value/kind mismatch. -/
def write_row (p : Page) (index : Nat) (schema : Schema) (values : List ScalarValue) :
    Option Page :=
  match serializeFields p.bytes (index * schema.row_size) 4096 schema.feilds values with
  | some f => some ⟨f⟩
  | none => none

/-- `Page::read_row` (src/table.rs): decode the row at `index * row_size`.
Unlike `LeafNode::read_row` the slices here are bounded by the whole 4096-byte
buffer, so the value region limit is `4096 - index * row_size`.  The same
empty-string offset bug is present (`offset += size` skipped when the length
byte is 0). -/
def read_row (p : Page) (index : Nat) (schema : Schema) : Option (List ScalarValue) :=
  readFields p.bytes (index * schema.row_size) (4096 - index * schema.row_size)
    schema.feilds 0

end Page

/-- `Pager` (src/table.rs): the backing file, the known page count, and the
fixed 100-slot cache (`[Option<Box<Page>>; TABLE_MAX_PAGE]`).  `cache` is
queried only through `cacheGet`/`cacheSet`, which model the unchecked array
indexing: any index `≥ TABLE_MAX_PAGE` is a panic. -/
structure Pager where
  file : FileM
  pages : Nat
  cache : Nat → Option Page

namespace Pager

/-- `Pager::new`. -/
def new (file : FileM) (pages : Nat) : Pager :=
  ⟨file, pages, fun _ => none⟩

/-- `self.cache[index]` (read): panics when `index ≥ TABLE_MAX_PAGE`. -/
def cacheGet (p : Pager) (index : Nat) : Except Err (Option Page) :=
  if index < TABLE_MAX_PAGE then Except.ok (p.cache index) else Except.error Err.panicked

/-- `self.cache[index] = Some(page)`: panics when `index ≥ TABLE_MAX_PAGE`. -/
def cacheSet (p : Pager) (index : Nat) (pg : Page) : Except Err Pager :=
  if index < TABLE_MAX_PAGE then
    Except.ok { p with cache := fun j => if j = index then some pg else p.cache j }
  else Except.error Err.panicked

/-- `Pager::page` (src/table.rs).  Beyond the known page count: grow the file
by one page (`set_len((pages + 1) * 4096 + HEADER_SPACE)`), increment the
count and cache a fresh zeroed page.  Otherwise return the cached page, or
read the page from `index * 4096 + HEADER_SPACE` into a zeroed buffer and
cache it.  Returns the page together with the updated pager (the Rust
function returns `&mut Page` aliasing `cache[index]`). -/
def page (p : Pager) (index : Nat) : Except Err (Page × Pager) :=
  if index ≥ p.pages then
    let file := p.file.setLen ((p.pages + 1) * 4096 + HEADER_SPACE)
    let p := { p with file := file, pages := p.pages + 1 }
    match p.cacheSet index Page.new with
    | Except.ok p => Except.ok (Page.new, p)
    | Except.error e => Except.error e
  else
    match p.cacheGet index with
    | Except.error e => Except.error e
    | Except.ok (some pg) => Except.ok (pg, p)
    | Except.ok none =>
      match p.file.readExact (index * 4096 + HEADER_SPACE) 4096 with
      | none => Except.error Err.ioError
      | some g =>
        let pg : Page := ⟨fun j => if j < 4096 then g j else 0⟩
        match p.cacheSet index pg with
        | Except.ok p => Except.ok (pg, p)
        | Except.error e => Except.error e

/-- `Pager::flush_page` (src/table.rs): write the cached page's full buffer at
its file offset; a no-op for uncached indices. -/
def flush_page (p : Pager) (index : Nat) : Except Err Pager :=
  match p.cacheGet index with
  | Except.error e => Except.error e
  | Except.ok (some pg) =>
    Except.ok { p with file := p.file.writeAt (index * 4096 + HEADER_SPACE) 4096 pg.bytes }
  | Except.ok none => Except.ok p

end Pager

/-! ### Table header serialization (bincode 1.x default format)

`TableHeader` derives serde's traits and is written with
`bincode::serialize_into` / read with `bincode::deserialize` (src/table.rs).
The bincode 1.x legacy format is fixed-width little-endian: strings and
sequences are a `u64` byte/element count followed by the contents, enum
variants are a `u32` tag (declaration order) followed by the payload, and
`usize` is encoded as `u64`. -/

/-- bincode of a string: `u64` length, then the bytes. -/
def serString (s : List Nat) : List Nat := leBytes 8 s.length ++ s

/-- bincode of `DataType`: `u32` variant tag, then the `usize` payload of
`String(usize)` (variant 0); `Number` is variant 1. -/
def serDataType : DataType → List Nat
  | DataType.String size => leBytes 4 0 ++ leBytes 8 size
  | DataType.Number => leBytes 4 1

/-- Persisted table header (src/table.rs `TableHeader`). -/
structure TableHeader where
  name : List Nat
  schema : Schema
  num_rows : Nat
  deriving DecidableEq, Repr

/-- bincode of `TableHeader { name, schema, num_rows }`. -/
def serializeHeader (h : TableHeader) : List Nat :=
  serString h.name ++ leBytes 8 h.schema.feilds.length ++
    (h.schema.feilds.map (fun f => serString f.1 ++ serDataType f.2)).flatten ++
    leBytes 8 h.num_rows

/-- Read an `n`-byte little-endian unsigned integer at `pos`, bounded by
`limit` (the deserialization buffer length). -/
def readU (g : Nat → Nat) (limit pos n : Nat) : Option (Nat × Nat) :=
  if pos + n ≤ limit then some (readLE g pos n, pos + n) else none

/-- Read `n` raw bytes at `pos`. -/
def readBytesAt (g : Nat → Nat) (limit pos n : Nat) : Option (List Nat × Nat) :=
  if pos + n ≤ limit then some (readList g pos n, pos + n) else none

/-- bincode string: `u64` length then bytes. -/
def readStringAt (g : Nat → Nat) (limit pos : Nat) : Option (List Nat × Nat) := do
  let (len, pos) ← readU g limit pos 8
  readBytesAt g limit pos len

/-- bincode `DataType`. -/
def readDataTypeAt (g : Nat → Nat) (limit pos : Nat) : Option (DataType × Nat) := do
  let (tag, pos) ← readU g limit pos 4
  if tag = 0 then (readU g limit pos 8).map (fun x => (DataType.String x.1, x.2))
  else if tag = 1 then some (DataType.Number, pos)
  else none

/-- bincode field list of known element count. -/
def readFieldsAt (g : Nat → Nat) (limit : Nat) :
    Nat → Nat → Option (List (List Nat × DataType) × Nat)
  | 0, pos => some ([], pos)
  | n + 1, pos => do
    let (name, pos) ← readStringAt g limit pos
    let (dt, pos) ← readDataTypeAt g limit pos
    let (rest, pos) ← readFieldsAt g limit n pos
    some ((name, dt) :: rest, pos)

/-- bincode `TableHeader` from a buffer of `limit` bytes. -/
def deserializeHeader (g : Nat → Nat) (limit : Nat) : Option TableHeader := do
  let (name, pos) ← readStringAt g limit 0
  let (cnt, pos) ← readU g limit pos 8
  let (fields, pos) ← readFieldsAt g limit cnt pos
  let (nr, _) ← readU g limit pos 8
  some ⟨name, ⟨fields⟩, nr⟩

/-! ### Table (src/table.rs) -/

/-- `Table`: the in-memory header plus the pager (field `pages` as in the
source). -/
structure Table where
  header : TableHeader
  pages : Pager

namespace Table

/-- `Table::rows_per_page` = `PAGE_SIZE / row_size`; division by zero is a
Rust panic. -/
def rows_per_page (t : Table) : Except Err Nat :=
  if t.header.schema.row_size = 0 then Except.error Err.panicked
  else Except.ok (PAGE_SIZE / t.header.schema.row_size)

/-- `Table::max_rows` = `rows_per_page() * TABLE_MAX_PAGE`. -/
def max_rows (t : Table) : Except Err Nat :=
  match t.rows_per_page with
  | Except.error e => Except.error e
  | Except.ok rpp => Except.ok (rpp * TABLE_MAX_PAGE)

/-- The zero-padded 4096-byte header buffer written by `Table::new` and
`Table::flush_table_header`: `vec![0u8; HEADER_SPACE]` with the bincode
serialization in its prefix. -/
def headerBuf (ser : List Nat) : Nat → Nat :=
  fun k => if k < ser.length then ser.getD k 0 else 0

/-- `Table::flush_table_header`: re-serialize the header into the reserved
region `[0, HEADER_SPACE)` of the file.  `serialize_into` into the 4096-byte
buffer fails (propagated as a bincode error by `?`) if the encoding does not
fit. -/
def flush_table_header (t : Table) : Except Err Table :=
  let ser := serializeHeader t.header
  if ser.length > HEADER_SPACE then Except.error Err.bincodeError
  else
    Except.ok { t with pages :=
      { t.pages with file := t.pages.file.writeAt 0 HEADER_SPACE (headerBuf ser) } }

/-- `Table::new` (src/table.rs): open-or-create is modelled by the caller
passing the current file contents (an empty file for a fresh table).  If the
file is empty, a freshly serialized header is written into the reserved
region (`unwrap` on a too-large encoding is a panic); the header is then
always re-read and deserialized from disk, and the initial page count is
`num_rows.div_ceil(PAGE_SIZE / row_size)` (whose divisions by zero are
panics).  `newAux` is the unconditional re-read half of `Table::new`. -/
def newAux (file : FileM) : Except Err Table :=
  match file.readExact 0 HEADER_SPACE with
  | none => Except.error Err.ioError
  | some g =>
    match deserializeHeader g HEADER_SPACE with
    | none => Except.error Err.panicked
    | some header =>
      if header.schema.row_size = 0 then Except.error Err.panicked
      else
        let rpp0 := PAGE_SIZE / header.schema.row_size
        if rpp0 = 0 then Except.error Err.panicked
        else
          let pagesCount := (header.num_rows + rpp0 - 1) / rpp0
          Except.ok ⟨header, Pager.new file pagesCount⟩

/-- `Table::new`: write a fresh header when the file is empty, then re-read
it via `newAux`. -/
def new (name : List Nat) (schema : Schema) (file0 : FileM) : Except Err Table :=
  if file0.len = 0 then
    let ser := serializeHeader ⟨name, schema, 0⟩
    if ser.length > HEADER_SPACE then Except.error Err.panicked
    else newAux (file0.writeAt 0 HEADER_SPACE (headerBuf ser))
  else newAux file0

/-- `Table::insert` (src/table.rs): reject with `RowLimit` at capacity;
otherwise write the row into page `(num_rows + 1) / rows_per_page` at in-page
slot `num_rows % rows_per_page`, flush that page, increment `num_rows`,
persist the header.  The trailing `file.flush()` is a no-op in the model. -/
def insert (t : Table) (values : List ScalarValue) : Except Err Table :=
  let num_rows := t.header.num_rows
  match t.max_rows with
  | Except.error e => Except.error e
  | Except.ok maxRows =>
    if num_rows ≥ maxRows then Except.error Err.rowLimit
    else
      match t.rows_per_page with
      | Except.error e => Except.error e
      | Except.ok row_per_page =>
        let page_index := (num_rows + 1) / row_per_page
        match t.pages.page page_index with
        | Except.error e => Except.error e
        | Except.ok (pg, pager) =>
          match pg.write_row (num_rows % row_per_page) t.header.schema values with
          | none => Except.error Err.panicked
          | some pg' =>
            match pager.cacheSet page_index pg' with
            | Except.error e => Except.error e
            | Except.ok pager =>
              match pager.flush_page page_index with
              | Except.error e => Except.error e
              | Except.ok pager =>
                Table.flush_table_header
                  { t with header := { t.header with num_rows := num_rows + 1 },
                           pages := pager }

/-- `Table::read` (src/table.rs): the page index is computed from the current
row count (`(num_rows + 1) / rows_per_page`), and the requested row index is
reduced `% rows_per_page`; the decoded values (printed by the source) are
returned. -/
def read (t : Table) (index : Nat) : Except Err (List ScalarValue × Table) :=
  match t.rows_per_page with
  | Except.error e => Except.error e
  | Except.ok rpp =>
    let page_index := (t.header.num_rows + 1) / rpp
    let index := index % rpp
    match t.pages.page page_index with
    | Except.error e => Except.error e
    | Except.ok (pg, pager) =>
      match pg.read_row index t.header.schema with
      | none => Except.error Err.panicked
      | some values => Except.ok (values, { t with pages := pager })

end Table

/-! ### Statement parsing (src/statement.rs) -/
def isDigitByte (c : Nat) : Bool := 48 ≤ c && c ≤ 57

def isWhiteByte (c : Nat) : Bool := c = 32 || c = 9 || c = 10 || c = 13

/-- `str::trim` (ASCII whitespace). -/
def trimBytes (s : List Nat) : List Nat :=
  ((s.dropWhile isWhiteByte).reverse.dropWhile isWhiteByte).reverse

/-- The `number` closure in `value_tokens`: longest digit prefix parsed as
`i64` (`parse::<i64>().ok()?`, so a value above `i64::MAX` yields `None`). -/
def numberTok (s : List Nat) : Option (Int × List Nat) :=
  match s.takeWhile isDigitByte with
  | [] => none
  | _ :: _ =>
    let digits := s.takeWhile isDigitByte
    let v : Nat := digits.foldl (fun a c => a * 10 + (c - 48)) 0
    if v ≤ 2 ^ 63 - 1 then some ((v : Int), s.drop digits.length) else none

/-- The scan for the closing quote in the `string` closure: a backslash
(byte 92) consumes the following character; byte 34 is the quote. -/
def scanQuote : List Nat → Nat → Option Nat
  | [], _ => none
  | c :: rest, i =>
    if c = 92 then
      match rest with
      | [] => none
      | _ :: rest2 => scanQuote rest2 (i + 2)
    else if c = 34 then some i
    else scanQuote rest (i + 1)

/-- One pass of `str::replace` for a two-byte pattern, left to right,
non-overlapping. -/
def replaceSeq (a b r : Nat) : List Nat → List Nat
  | [] => []
  | [x] => [x]
  | x :: y :: rest =>
    if x = a ∧ y = b then r :: replaceSeq a b r rest
    else x :: replaceSeq a b r (y :: rest)

/-- The `string` closure in `value_tokens`: a quoted token starting at the
head of `s`; the inner text has `\\` and `\"` unescaped (in that order). -/
def stringTok (s : List Nat) : Option (List Nat × List Nat) :=
  if s.length < 2 ∧ s.headD 0 ≠ 34 then none
  else
    match s with
    | [] => none
    | _ :: rest =>
      match scanQuote rest 1 with
      | none => none
      | some idx =>
        let inner := (s.drop 1).take (idx - 1)
        let unescaped := replaceSeq 92 34 34 (replaceSeq 92 92 92 inner)
        some (unescaped, s.drop (idx + 1))

/-- The tokenizing loop of `value_tokens` (src/statement.rs): numbers first,
then quoted strings, trimming between tokens; anything else is a
`ParseError`.  `fuel` bounds the recursion (each iteration consumes at least
one byte, so `s.length + 1` fuel never runs out; exhaustion is mapped to
`panicked` and is unreachable). -/
def valueTokensLoop : Nat → List Nat → List ScalarValue → Except Err (List ScalarValue)
  | 0, _, _ => Except.error Err.panicked
  | fuel + 1, s, acc =>
    if s.isEmpty then Except.ok acc.reverse
    else
      match numberTok s with
      | some (v, rem) => valueTokensLoop fuel (trimBytes rem) (ScalarValue.Number v :: acc)
      | none =>
        match stringTok s with
        | some (tok, rem) => valueTokensLoop fuel (trimBytes rem) (ScalarValue.String tok :: acc)
        | none => Except.error Err.parseError

/-- `value_tokens` (src/statement.rs). -/
def value_tokens (s : List Nat) : Except Err (List ScalarValue) :=
  valueTokensLoop (s.length + 1) s []

/-- `Statement::insert_statement` (src/statement.rs): tokenize, then check
arity and the kind of each value against the schema; any mismatch is
`ParseError`.  Returns the `InsertStatement` value list. -/
def insert_statement (args : List Nat) (schema : Schema) : Except Err (List ScalarValue) :=
  match value_tokens args with
  | Except.error e => Except.error e
  | Except.ok values =>
    if schema.feilds.length ≠ values.length then Except.error Err.parseError
    else if (List.zip schema.feilds values).all (fun x =>
        match x.1.2, x.2 with
        | DataType.String _, ScalarValue.String _ => true
        | DataType.Number, ScalarValue.Number _ => true
        | _, _ => false) then Except.ok values
    else Except.error Err.parseError

/-! ### Machinery for claim C4 -/

/-- `values` matches `fields` in kind and arity (surplus values are allowed —
the source only draws from the iterator).  `size ≠ 0` is required because
`serialize_row` indexes `bytes[0]` of the slot, a panic for a 0-byte slot. -/
def valuesMatch : List (List Nat × DataType) → List ScalarValue → Bool
  | [], _ => true
  | (_, DataType.String size) :: fs, ScalarValue.String _ :: vs =>
    (size != 0) && valuesMatch fs vs
  | (_, DataType.Number) :: fs, ScalarValue.Number _ :: vs => valuesMatch fs vs
  | _ :: _, _ => false

/-- Run a sequence of `leaf_node_split_and_insert` calls, collecting each
call's optional new (split-off) leaf. -/
def runInserts (schema : Schema) : LeafNode → List (Nat × List ScalarValue) →
    Option (LeafNode × List (Option LeafNode))
  | l, [] => some (l, [])
  | l, (k, vs) :: rest =>
    match l.leaf_node_split_and_insert k vs schema with
    | none => none
    | some (l', out) =>
      match runInserts schema l' rest with
      | none => none
      | some (lf, outs) => some (lf, out :: outs)

def c4_schema : Schema := ⟨[([98], DataType.String 2037)]⟩

/-- The insert sequence for the C4 witness: keys 2, 1, 0 with distinct
one-byte string values, for the `FixedString(2037)` schema (`max_cells = 2`). -/
def c4_inserts : List (Nat × List ScalarValue) :=
  [(2, [ScalarValue.String [97]]), (1, [ScalarValue.String [98]]),
   (0, [ScalarValue.String [99]])]

/-- A schema whose row does not fit a cell in a page:
`cell_size = 4 + 4079 = 4083 > 4096 - 14`, so `max_cells = 0`. -/
def c4ce_schema : Schema := ⟨[([98], DataType.String 4079)]⟩

/-- One insert — exactly `max_cells + 1` for the `FixedString(4079)` schema. -/
def c4ce_inserts : List (Nat × List ScalarValue) :=
  [(0, [ScalarValue.String [97]])]

/-! ### Machinery for claim C7 -/

/-- A page entirely filled with byte `b` (`(&mut page.bytes).fill_with(|| b)`
in the scenario). -/
def fillPage (b : Nat) : Page := ⟨fun j => if j < 4096 then b else 0⟩

/-- One scenario step: obtain page `i` through `Pager::page`, fill its bytes
with `b` through the returned mutable reference, and flush it. -/
def writeFillFlush (p : Pager) (i b : Nat) : Except Err Pager :=
  match p.page i with
  | Except.error e => Except.error e
  | Except.ok (_, p) =>
    match p.cacheSet i (fillPage b) with
    | Except.error e => Except.error e
    | Except.ok p => p.flush_page i

/-- The C7 write phase: starting from a fresh pager over a file holding only
the (empty) header region — as in the source's `pager_test`, which sets the
file length to `HEADER_SPACE` and opens `Pager::new(file, 0)` — write and
flush fill byte `fills i` into page `i` for `i = 0, ..., n - 1`. -/
def pagerLoop (fills : Nat → Nat) : Nat → Except Err Pager
  | 0 => Except.ok (Pager.new ⟨HEADER_SPACE, fun _ => 0⟩ 0)
  | k + 1 =>
    match pagerLoop fills k with
    | Except.error e => Except.error e
    | Except.ok p => writeFillFlush p k (fills k)

/-! ### Claim C5 -/

/-- An empty (freshly created) file. -/
def emptyFile : FileM := ⟨0, fun _ => 0⟩

/-- The C5 schema `{b: FixedString(4096)}`: `row_size = 4096`, so
`rows_per_page() = 1` and `max_rows() = rows_per_page() * TABLE_MAX_PAGE
= 100`. -/
def c5_schema : Schema := ⟨[([98], DataType.String 4096)]⟩

/-- `k` successive `Table::insert` calls on a fresh table. -/
def c5_iter : Nat → Except Err Table
  | 0 => Table.new [116] c5_schema emptyFile
  | k + 1 =>
    match c5_iter k with
    | Except.error e => Except.error e
    | Except.ok t => t.insert [ScalarValue.String [120]]

/-! ### Claim C8 -/

/-- The C8 schema `{a: Integer64, b: FixedString(10)}` (`row_size = 18`,
`rows_per_page() = 227`). -/
def c8_schema : Schema := ⟨[([97], DataType.Number), ([98], DataType.String 10)]⟩

/-- `(1, "hi")`. -/
def c8_v1 : List ScalarValue := [ScalarValue.Number 1, ScalarValue.String [104, 105]]

/-- `(2, "there")`. -/
def c8_v2 : List ScalarValue :=
  [ScalarValue.Number 2, ScalarValue.String [116, 104, 101, 114, 101]]

/-- The page after the first row write. -/
def c8_pg1 : Option Page := Page.new.write_row 0 c8_schema c8_v1

/-! ### Claim C1 -/
def c1_schema : Schema := ⟨[([97], DataType.Number)]⟩

/-- Insert key 0, then key 1, into a fresh leaf (schema: one `Number` field,
`row_size = 8`). -/
def c1_leaf : Option LeafNode :=
  (LeafNode.new.leaf_node_split_and_insert 0 [ScalarValue.Number 100] c1_schema).bind
    (fun p => (p.1.leaf_node_split_and_insert 1 [ScalarValue.Number 200] c1_schema).map Prod.fst)

/-! ### Claim C2 -/
def c2_schema : Schema := ⟨[([98], DataType.String 10), ([97], DataType.Number)]⟩

def c2_values : List ScalarValue := [ScalarValue.String [], ScalarValue.Number 5]

/-! ### Claim C3 -/
def c3_schema : Schema := ⟨[([98], DataType.String 2037)]⟩

/-- A full leaf for `c3_schema` (`row_size = 2037`, `max_cells = 2`): keys
inserted in the order 1, 0, leaving the sorted cells `[(0, "b"), (1, "a")]`. -/
def c3_full : Option LeafNode :=
  (LeafNode.new.leaf_node_split_and_insert 1 [ScalarValue.String [97]] c3_schema).bind
    (fun p => (p.1.leaf_node_split_and_insert 0 [ScalarValue.String [98]] c3_schema).map
      Prod.fst)

/-- Insert key 2 into the full leaf, forcing a split. -/
def c3_split : Option (LeafNode × Option LeafNode) :=
  c3_full.bind (fun l => l.leaf_node_split_and_insert 2 [ScalarValue.String [99]] c3_schema)

/-! ### Claim C6 -/
def c6_schema : Schema := ⟨[([98], DataType.String 10)]⟩

/-- The statement argument `"aaaaaaaaaaaa"` — a quoted 12-byte string for a
`FixedString(10)` field whose payload capacity is 9 bytes. -/
def c6_input : List Nat := 34 :: (List.replicate 12 97 ++ [34])

end ScalarDB

namespace ScalarDB

theorem readLE_lt (f : Nat → Nat) (off : Nat) : ∀ n, readLE f off n < 256 ^ n := by
  intro n
  induction n generalizing off with
  | zero => simp [readLE]
  | succ n ih =>
    have h1 : f off % 256 < 256 := Nat.mod_lt _ (by norm_num)
    have h2 := ih (off + 1)
    calc f off % 256 + 256 * readLE f (off + 1) n
        < 256 + 256 * readLE f (off + 1) n := by omega
      _ ≤ 256 + 256 * (256 ^ n - 1) := by
          have : readLE f (off + 1) n ≤ 256 ^ n - 1 := by omega
          omega
      _ ≤ 256 ^ (n + 1) := by
          have : 1 ≤ 256 ^ n := Nat.one_le_pow _ _ (by norm_num)
          rw [pow_succ]
          omega

/-- Bytes strictly below the written region are untouched by `writeLE`. -/
theorem writeLE_outside (f : Nat → Nat) (off : Nat) :
    ∀ n v j, (j < off ∨ off + n ≤ j) → writeLE f off n v j = f j := by
  intro n
  induction n generalizing f off with
  | zero => intro v j _; rfl
  | succ n ih =>
    intro v j hj
    have := ih (fun j => if j = off then v % 256 else f j) (off + 1) (v / 256) j (by omega)
    rw [writeLE, this]
    have : j ≠ off := by omega
    simp [this]

/-- Reading depends only on the bytes of the region being read. -/
theorem readLE_congr (f g : Nat → Nat) (off : Nat) :
    ∀ n, (∀ j, off ≤ j → j < off + n → f j = g j) → readLE f off n = readLE g off n := by
  intro n
  induction n generalizing off with
  | zero => intro _; rfl
  | succ n ih =>
    intro h
    rw [readLE, readLE, h off (le_refl _) (by omega), ih (off + 1) (fun j h1 h2 => h j (by omega) (by omega))]

/-- Reading back the region just written yields the value modulo `256 ^ n`. -/
theorem readLE_writeLE (f : Nat → Nat) (off : Nat) :
    ∀ n v, readLE (writeLE f off n v) off n = v % 256 ^ n := by
  intro n
  induction n generalizing f off with
  | zero => intro v; simp [readLE, writeLE, Nat.mod_one]
  | succ n ih =>
    intro v
    rw [writeLE, readLE]
    have hout : writeLE (fun j => if j = off then v % 256 else f j) (off + 1) n (v / 256) off
        = v % 256 := by
      rw [writeLE_outside _ _ _ _ _ (by omega)]
      simp
    rw [hout, ih]
    have h256 : (256 : Nat) ^ (n + 1) = 256 * 256 ^ n := by ring
    rw [h256, Nat.mod_mul, Nat.mod_mod_of_dvd v (dvd_refl 256)]

/-- Bytes strictly outside the written list are untouched by `writeBytes`. -/
theorem writeBytes_outside (f : Nat → Nat) (off : Nat) :
    ∀ bs j, (j < off ∨ off + bs.length ≤ j) → writeBytes f off bs j = f j := by
  intro bs
  induction bs generalizing f off with
  | nil => intro j _; rfl
  | cons b bs ih =>
    intro j hj
    simp only [List.length_cons] at hj
    rw [writeBytes, ih _ _ _ (by omega)]
    have : j ≠ off := by omega
    simp [this]

namespace FileM

theorem setLen_len (f : FileM) (n : Nat) : (f.setLen n).len = n := rfl

theorem setLen_data (f : FileM) (n j : Nat) :
    (f.setLen n).data j = if j < n ∧ j < f.len then f.data j else 0 := rfl

theorem writeAt_len (f : FileM) (off n : Nat) (g : Nat → Nat) :
    (f.writeAt off n g).len = max f.len (off + n) := rfl

theorem writeAt_data (f : FileM) (off n : Nat) (g : Nat → Nat) (j : Nat) :
    (f.writeAt off n g).data j =
      if off ≤ j ∧ j < off + n then g (j - off) % 256
      else if j < f.len then f.data j else 0 := rfl

theorem readExact_eq (f : FileM) (off n : Nat) (h : off + n ≤ f.len) :
    f.readExact off n = some (fun k => if k < n then f.data (off + k) % 256 else 0) := by
  unfold readExact
  rw [if_pos h]

end FileM

theorem readLE_writeLE_disjoint (f : Nat → Nat) (off1 n1 off2 n2 v : Nat)
    (h : off1 + n1 ≤ off2 ∨ off2 + n2 ≤ off1) :
    readLE (writeLE f off2 n2 v) off1 n1 = readLE f off1 n1 :=
  readLE_congr _ _ _ _ (fun j h1 h2 => writeLE_outside f off2 n2 v j (by omega))

theorem serializeFields_some (fields : List (List Nat × DataType))
    (values : List ScalarValue) (h : valuesMatch fields values = true) :
    ∀ f off limit, off + fieldsSize fields ≤ limit →
      ∃ g, serializeFields f off limit fields values = some g := by
  induction fields generalizing values with
  | nil => intro f off limit _; exact ⟨f, rfl⟩
  | cons fd fields ih =>
    obtain ⟨nm, dt⟩ := fd
    cases dt with
    | String size =>
      cases values with
      | nil => simp [valuesMatch] at h
      | cons v vs =>
        cases v with
        | Number => simp [valuesMatch] at h
        | String s =>
          simp only [valuesMatch, Bool.and_eq_true, bne_iff_ne, ne_eq] at h
          intro f off limit hfit
          simp only [fieldsSize] at hfit
          rw [serializeFields, if_neg (by omega), if_neg h.1]
          exact ih vs h.2 _ _ _ (by omega)
    | Number =>
      cases values with
      | nil => simp [valuesMatch] at h
      | cons v vs =>
        cases v with
        | String s => simp [valuesMatch] at h
        | Number m =>
          simp only [valuesMatch] at h
          intro f off limit hfit
          simp only [fieldsSize] at hfit
          rw [serializeFields, if_neg (by omega)]
          exact ih vs h _ _ _ (by omega)

theorem serializeFields_below_off (fields : List (List Nat × DataType)) :
    ∀ (values : List ScalarValue) (f : Nat → Nat) (off limit : Nat) (g : Nat → Nat),
      serializeFields f off limit fields values = some g → ∀ j, j < off → g j = f j := by
  induction fields with
  | nil =>
    intro values f off limit g h j hj
    simp only [serializeFields, Option.some.injEq] at h
    rw [← h]
  | cons fd fields ih =>
    obtain ⟨nm, dt⟩ := fd
    intro values f off limit g h j hj
    cases dt with
    | String size =>
      cases values with
      | nil => simp [serializeFields] at h
      | cons v vs =>
        cases v with
        | Number => simp [serializeFields] at h
        | String s =>
          rw [serializeFields] at h
          by_cases hov : off + size > limit
          · rw [if_pos hov] at h; exact absurd h (by simp)
          · rw [if_neg hov] at h
            by_cases h0 : size = 0
            · rw [if_pos h0] at h; exact absurd h (by simp)
            · rw [if_neg h0] at h
              rw [ih vs _ _ _ _ h j (by omega)]
              rw [writeBytes_outside _ _ _ _ (Or.inl (by omega))]
              simp only [if_neg (by omega : ¬ j = off)]
    | Number =>
      cases values with
      | nil => simp [serializeFields] at h
      | cons v vs =>
        cases v with
        | String s => simp [serializeFields] at h
        | Number m =>
          rw [serializeFields] at h
          by_cases hov : off > limit
          · rw [if_pos hov] at h; exact absurd h (by simp)
          · rw [if_neg hov] at h
            rw [ih vs _ _ _ _ h j (by omega)]
            exact writeBytes_outside f off _ j (Or.inl (by omega))

/-- `Schema::row_size` agrees with the cursor advance of the field list. -/
theorem row_size_eq_fieldsSize (s : Schema) : s.row_size = fieldsSize s.feilds := by
  unfold Schema.row_size
  induction s.feilds with
  | nil => rfl
  | cons fd fields ih =>
    obtain ⟨nm, dt⟩ := fd
    cases dt with
    | String size => simp [fieldsSize, ← ih]
    | Number => simp [fieldsSize, ← ih]

namespace LeafNode

theorem new_num_cells : LeafNode.new.num_cells = 0 := rfl

theorem new_parent : LeafNode.new.parent = 0 := rfl

theorem parent_lt (l : LeafNode) : l.parent < 4294967296 := readLE_lt _ _ 4

theorem max_cells_le (value_size : Nat) : max_cells value_size ≤ 1020 := by
  unfold max_cells cell_size KEY_SIZE HEADER_SIZE NEXT_LEAF_OFFSET NUM_CELLS_OFFSET
    COMMON_NODE_HEADER_SIZE
  calc (4096 - 14) / (4 + value_size) ≤ (4096 - 14) / 4 :=
        Nat.div_le_div_left (by omega) (by omega)
    _ = 1020 := by norm_num

theorem num_cells_set (l : LeafNode) (v : Nat) (hv : v < 4294967296) :
    (l.set_num_cells v).num_cells = v := by
  unfold num_cells set_num_cells
  rw [readLE_writeLE]
  norm_num
  omega

theorem parent_set_num_cells (l : LeafNode) (v : Nat) :
    (l.set_num_cells v).parent = l.parent := by
  unfold parent set_num_cells NUM_CELLS_OFFSET PARENT_POINTER_OFFSET COMMON_NODE_HEADER_SIZE
  exact readLE_writeLE_disjoint _ _ _ _ _ _ (by omega)

theorem parent_set_next_leaf (l : LeafNode) (v : Nat) :
    (l.set_next_leaf v).parent = l.parent := by
  unfold parent set_next_leaf NEXT_LEAF_OFFSET NUM_CELLS_OFFSET PARENT_POINTER_OFFSET
    COMMON_NODE_HEADER_SIZE
  exact readLE_writeLE_disjoint _ _ _ _ _ _ (by omega)

theorem parent_set_parent (l : LeafNode) (v : Nat) (hv : v < 4294967296) :
    (l.set_parent v).parent = v := by
  unfold parent set_parent
  rw [readLE_writeLE]
  norm_num
  omega

/-- Accessors below offset 14 only depend on the header bytes. -/
theorem num_cells_congr (l l' : LeafNode)
    (h : ∀ j, j < HEADER_SIZE → l'.bytes j = l.bytes j) : l'.num_cells = l.num_cells := by
  unfold num_cells
  exact readLE_congr _ _ _ _ (fun j h1 h2 => h j (by
    unfold NUM_CELLS_OFFSET COMMON_NODE_HEADER_SIZE at h2
    unfold HEADER_SIZE NEXT_LEAF_OFFSET NUM_CELLS_OFFSET COMMON_NODE_HEADER_SIZE
    omega))

theorem parent_congr (l l' : LeafNode)
    (h : ∀ j, j < HEADER_SIZE → l'.bytes j = l.bytes j) : l'.parent = l.parent := by
  unfold parent
  exact readLE_congr _ _ _ _ (fun j h1 h2 => h j (by
    unfold PARENT_POINTER_OFFSET at h1 h2
    unfold HEADER_SIZE NEXT_LEAF_OFFSET NUM_CELLS_OFFSET COMMON_NODE_HEADER_SIZE
    omega))

theorem copy_within_low (l : LeafNode) (vs src dst j : Nat) (hj : j < HEADER_SIZE) :
    (l.copy_within vs src dst).bytes j = l.bytes j := by
  unfold copy_within
  simp only
  rw [if_neg]
  unfold HEADER_SIZE NEXT_LEAF_OFFSET NUM_CELLS_OFFSET COMMON_NODE_HEADER_SIZE at hj ⊢
  omega

theorem copy_cell_from_low (dst src : LeafNode) (vs di si j : Nat) (hj : j < HEADER_SIZE) :
    (copy_cell_from dst src vs di si).bytes j = dst.bytes j := by
  unfold copy_cell_from
  simp only
  rw [if_neg]
  unfold HEADER_SIZE NEXT_LEAF_OFFSET NUM_CELLS_OFFSET COMMON_NODE_HEADER_SIZE at hj ⊢
  omega

theorem serialize_row_some (l : LeafNode) (idx : Nat) (schema : Schema) (key : Nat)
    (vals : List ScalarValue) (hm : valuesMatch schema.feilds vals = true)
    (hb : HEADER_SIZE + idx * cell_size schema.row_size + cell_size schema.row_size ≤ 4096) :
    ∃ l', l.serialize_row idx schema key vals = some l' := by
  unfold serialize_row
  obtain ⟨g, hg⟩ := serializeFields_some schema.feilds vals hm
    (writeLE l.bytes (HEADER_SIZE + idx * cell_size schema.row_size) 4 key)
    (HEADER_SIZE + idx * cell_size schema.row_size + KEY_SIZE)
    (HEADER_SIZE + idx * cell_size schema.row_size + cell_size schema.row_size)
    (by
      rw [← row_size_eq_fieldsSize]
      unfold cell_size KEY_SIZE
      omega)
  rw [if_neg (by omega)]
  simp only [hg]
  exact ⟨_, rfl⟩

theorem serialize_row_low (l l' : LeafNode) (idx : Nat) (schema : Schema) (key : Nat)
    (vals : List ScalarValue) (h : l.serialize_row idx schema key vals = some l')
    (j : Nat) (hj : j < HEADER_SIZE) : l'.bytes j = l.bytes j := by
  simp only [serialize_row] at h
  by_cases hb : HEADER_SIZE + idx * cell_size schema.row_size + cell_size schema.row_size > 4096
  · rw [if_pos hb] at h; exact absurd h (by simp)
  rw [if_neg hb] at h
  cases hg : serializeFields (writeLE l.bytes (HEADER_SIZE + idx * cell_size schema.row_size) 4 key)
      (HEADER_SIZE + idx * cell_size schema.row_size + KEY_SIZE)
      (HEADER_SIZE + idx * cell_size schema.row_size + cell_size schema.row_size)
      schema.feilds vals with
  | none => rw [hg] at h; exact absurd h (by simp)
  | some g =>
    rw [hg] at h
    simp only [Option.some.injEq] at h
    rw [← h]
    show g j = l.bytes j
    rw [serializeFields_below_off _ _ _ _ _ _ hg j (by
      have := Nat.le_add_right HEADER_SIZE (idx * cell_size schema.row_size)
      unfold KEY_SIZE
      omega)]
    exact writeLE_outside _ _ _ _ _ (Or.inl (by
      have := Nat.le_add_right HEADER_SIZE (idx * cell_size schema.row_size)
      omega))

theorem shiftRight_low (vs index : Nat) :
    ∀ (cnt : Nat) (l : LeafNode) (j : Nat), j < HEADER_SIZE →
      (shiftRight l vs index cnt).bytes j = l.bytes j := by
  intro cnt
  induction cnt with
  | zero => intro l j hj; rfl
  | succ cnt ih =>
    intro l j hj
    rw [shiftRight, ih _ _ hj, copy_within_low _ _ _ _ _ hj]

theorem cell_in_bounds (vs idx : Nat) (h : idx < max_cells vs) :
    HEADER_SIZE + idx * cell_size vs + cell_size vs ≤ 4096 := by
  have h1 : (idx + 1) * cell_size vs ≤ max_cells vs * cell_size vs :=
    Nat.mul_le_mul_right _ (by omega)
  have h2 : max_cells vs * cell_size vs ≤ 4096 - HEADER_SIZE := by
    unfold max_cells
    exact Nat.div_mul_le_self _ _
  have h3 : (idx + 1) * cell_size vs = idx * cell_size vs + cell_size vs :=
    Nat.succ_mul idx (cell_size vs)
  have h4 : HEADER_SIZE = 14 := rfl
  omega

theorem binarySearchAux_lt (l : LeafNode) (target vs : Nat) :
    ∀ (fuel left right m : Nat),
      binarySearchAux l target vs fuel left right = some m → m < right := by
  intro fuel
  induction fuel with
  | zero => intro left right m h; exact absurd h (by simp [binarySearchAux])
  | succ fuel ih =>
    intro left right m h
    simp only [binarySearchAux] at h
    by_cases hlr : left < right
    · rw [if_pos hlr] at h
      by_cases h1 : l.key (left + (right - left) / 2) vs < target
      · rw [if_pos h1] at h
        exact ih _ _ _ h
      · rw [if_neg h1] at h
        by_cases h2 : l.key (left + (right - left) / 2) vs = target
        · rw [if_pos h2] at h
          simp only [Option.some.injEq] at h
          omega
        · rw [if_neg h2] at h
          have := ih _ _ _ h
          omega
    · rw [if_neg hlr] at h
      exact absurd h (by simp)

theorem splitLeft_spec (schema : Schema) (insKey : Nat) (vals : List ScalarValue)
    (index left_count : Nat) (hm : valuesMatch schema.feilds vals = true)
    (hlc0 : 0 < left_count) (hlcm : left_count ≤ max_cells schema.row_size) :
    ∀ (cnt : Nat) (l : LeafNode),
      ∃ l', splitLeft schema insKey vals index left_count l cnt = some l' ∧
        ∀ j, j < HEADER_SIZE → l'.bytes j = l.bytes j := by
  intro cnt
  induction cnt with
  | zero => intro l; exact ⟨l, rfl, fun j _ => rfl⟩
  | succ cnt ih =>
    intro l
    obtain ⟨acc, hacc, hlow⟩ := ih l
    rw [splitLeft, hacc]
    simp only
    by_cases hci : cnt = index
    · rw [if_pos hci]
      obtain ⟨l', hl'⟩ := serialize_row_some acc (cnt % left_count) schema insKey vals hm
        (cell_in_bounds _ _ (lt_of_lt_of_le (Nat.mod_lt _ hlc0) hlcm))
      refine ⟨l', hl', fun j hj => ?_⟩
      rw [serialize_row_low _ _ _ _ _ _ hl' j hj, hlow j hj]
    · rw [if_neg hci]
      by_cases hgt : cnt > index
      · rw [if_pos hgt]
        refine ⟨_, rfl, fun j hj => ?_⟩
        rw [copy_within_low _ _ _ _ _ hj, hlow j hj]
      · rw [if_neg hgt]
        refine ⟨_, rfl, fun j hj => ?_⟩
        rw [copy_within_low _ _ _ _ _ hj, hlow j hj]

theorem splitRight_spec (schema : Schema) (insKey : Nat) (vals : List ScalarValue)
    (index left_count : Nat) (src : LeafNode) (hm : valuesMatch schema.feilds vals = true)
    (hlc0 : 0 < left_count) (hlcm : left_count ≤ max_cells schema.row_size) :
    ∀ (cnt : Nat) (new0 : LeafNode),
      ∃ new', splitRight schema insKey vals index left_count src new0 cnt = some new' ∧
        ∀ j, j < HEADER_SIZE → new'.bytes j = new0.bytes j := by
  intro cnt
  induction cnt with
  | zero => intro new0; exact ⟨new0, rfl, fun j _ => rfl⟩
  | succ cnt ih =>
    intro new0
    obtain ⟨acc, hacc, hlow⟩ := ih new0
    rw [splitRight, hacc]
    simp only
    by_cases hci : left_count + cnt = index
    · rw [if_pos hci]
      obtain ⟨r', hr'⟩ := serialize_row_some acc ((left_count + cnt) % left_count) schema
        insKey vals hm (cell_in_bounds _ _ (lt_of_lt_of_le (Nat.mod_lt _ hlc0) hlcm))
      refine ⟨r', hr', fun j hj => ?_⟩
      rw [serialize_row_low _ _ _ _ _ _ hr' j hj, hlow j hj]
    · rw [if_neg hci]
      by_cases hgt : left_count + cnt > index
      · rw [if_pos hgt]
        refine ⟨_, rfl, fun j hj => ?_⟩
        rw [copy_cell_from_low _ _ _ _ _ _ hj, hlow j hj]
      · rw [if_neg hgt]
        refine ⟨_, rfl, fun j hj => ?_⟩
        rw [copy_cell_from_low _ _ _ _ _ _ hj, hlow j hj]

/-- Below capacity, `leaf_node_split_and_insert` with kind-matching values
succeeds with no split, increments `num_cells` by one, and preserves the
parent pointer. -/
theorem insert_below_spec (l : LeafNode) (key : Nat) (vals : List ScalarValue)
    (schema : Schema) (hk : l.num_cells < max_cells schema.row_size)
    (hm : valuesMatch schema.feilds vals = true) :
    ∃ l', l.leaf_node_split_and_insert key vals schema = some (l', none) ∧
      l'.num_cells = l.num_cells + 1 ∧ l'.parent = l.parent := by
  simp only [leaf_node_split_and_insert]
  rw [if_pos hk]
  have hidx : (l.binary_search key schema.row_size).getD 0 < max_cells schema.row_size := by
    cases hbs : l.binary_search key schema.row_size with
    | none => simp only [Option.getD_none]; omega
    | some m =>
      unfold binary_search at hbs
      have := binarySearchAux_lt l key schema.row_size _ _ _ _ hbs
      simp only [Option.getD_some]
      omega
  obtain ⟨l₂, hl₂⟩ := serialize_row_some
    (shiftRight l schema.row_size ((l.binary_search key schema.row_size).getD 0)
      (l.num_cells - (l.binary_search key schema.row_size).getD 0))
    ((l.binary_search key schema.row_size).getD 0) schema key vals hm
    (cell_in_bounds _ _ hidx)
  rw [hl₂]
  have hlow : ∀ j, j < HEADER_SIZE → l₂.bytes j = l.bytes j := by
    intro j hj
    rw [serialize_row_low _ _ _ _ _ _ hl₂ j hj, shiftRight_low _ _ _ _ _ hj]
  refine ⟨_, rfl, ?_, ?_⟩
  · rw [num_cells_set]
    have := max_cells_le schema.row_size
    omega
  · rw [parent_set_num_cells, parent_congr _ _ hlow]

/-- At capacity, `leaf_node_split_and_insert` with kind-matching values
splits: it returns a new right leaf, the original keeps
`(max_cells + 1) - (max_cells + 1) / 2` cells, the new leaf gets
`(max_cells + 1) / 2` cells, and both parents equal the original parent. -/
theorem insert_at_capacity_spec (l : LeafNode) (key : Nat) (vals : List ScalarValue)
    (schema : Schema) (hk : l.num_cells = max_cells schema.row_size)
    (hm : valuesMatch schema.feilds vals = true)
    (hpos : 1 ≤ max_cells schema.row_size) :
    ∃ l' r, l.leaf_node_split_and_insert key vals schema = some (l', some r) ∧
      l'.num_cells = (max_cells schema.row_size + 1) - (max_cells schema.row_size + 1) / 2 ∧
      r.num_cells = (max_cells schema.row_size + 1) / 2 ∧
      l'.parent = l.parent ∧ r.parent = l.parent := by
  simp only [leaf_node_split_and_insert]
  rw [hk, if_neg (lt_irrefl _)]
  obtain ⟨l₂, hl₂, hl₂low⟩ := splitLeft_spec schema key vals
    ((l.binary_search key schema.row_size).getD 0)
    ((max_cells schema.row_size + 1) - (max_cells schema.row_size + 1) / 2) hm
    (by omega) (by omega)
    ((max_cells schema.row_size + 1) - (max_cells schema.row_size + 1) / 2) l
  rw [hl₂]
  dsimp only
  obtain ⟨r₂, hr₂, hr₂low⟩ := splitRight_spec schema key vals
    ((l.binary_search key schema.row_size).getD 0)
    ((max_cells schema.row_size + 1) - (max_cells schema.row_size + 1) / 2) l₂ hm
    (by omega) (by omega)
    (max_cells schema.row_size + 1 -
      ((max_cells schema.row_size + 1) - (max_cells schema.row_size + 1) / 2))
    ((LeafNode.new.set_parent l.parent).set_next_leaf l.next_leaf)
  rw [hr₂]
  have hmax := max_cells_le schema.row_size
  refine ⟨_, _, rfl, ?_, ?_, ?_, ?_⟩
  · rw [num_cells_set]
    omega
  · rw [num_cells_set]
    have : (max_cells schema.row_size + 1) / 2 ≤ max_cells schema.row_size + 1 :=
      Nat.div_le_self _ _
    omega
  · rw [parent_set_num_cells, parent_congr _ _ hl₂low]
  · rw [parent_set_num_cells, parent_congr _ _ hr₂low, parent_set_next_leaf,
      parent_set_parent _ _ (parent_lt l)]

end LeafNode

/-- Main induction for C4: starting from any leaf whose `num_cells` is
exactly `max_cells + 1 - (length of the insert sequence)`, the whole
sequence runs with no split except at the very last insert. -/
theorem runInserts_spec (schema : Schema)
    (hpos : 1 ≤ LeafNode.max_cells schema.row_size) :
    ∀ (ins : List (Nat × List ScalarValue)) (l : LeafNode),
      (∀ kv ∈ ins, valuesMatch schema.feilds kv.2 = true) →
      l.num_cells + ins.length = LeafNode.max_cells schema.row_size + 1 →
      ins ≠ [] →
      ∃ left right, runInserts schema l ins
          = some (left, List.replicate (ins.length - 1) none ++ [some right]) ∧
        left.num_cells
          = (LeafNode.max_cells schema.row_size + 1)
            - (LeafNode.max_cells schema.row_size + 1) / 2 ∧
        right.num_cells = (LeafNode.max_cells schema.row_size + 1) / 2 ∧
        right.parent = left.parent := by
  intro ins
  induction ins with
  | nil => intro l _ _ hne; exact absurd rfl hne
  | cons kv rest ih =>
    obtain ⟨k, vs⟩ := kv
    intro l hmatch hlen _
    cases rest with
    | nil =>
      have hcap : l.num_cells = LeafNode.max_cells schema.row_size := by
        simp only [List.length_cons, List.length_nil] at hlen
        omega
      obtain ⟨l', r, hins, hl', hr, hlp, hrp⟩ :=
        LeafNode.insert_at_capacity_spec l k vs schema hcap
          (hmatch (k, vs) (List.mem_cons_self _ _)) hpos
      refine ⟨l', r, ?_, hl', hr, by rw [hrp, hlp]⟩
      rw [runInserts, hins]
      rfl
    | cons kv2 rest2 =>
      have hlt : l.num_cells < LeafNode.max_cells schema.row_size := by
        simp only [List.length_cons] at hlen
        omega
      obtain ⟨l₁, hins, hcount, hpar⟩ :=
        LeafNode.insert_below_spec l k vs schema hlt (hmatch (k, vs) (List.mem_cons_self _ _))
      obtain ⟨left, right, hrun, hleft, hright, hpar2⟩ :=
        ih l₁ (fun kv h => hmatch kv (List.mem_cons_of_mem _ h))
          (by simp only [List.length_cons] at hlen ⊢; omega)
          (by simp)
      refine ⟨left, right, ?_, hleft, hright, hpar2⟩
      rw [runInserts, hins]
      dsimp only
      rw [hrun]
      simp only [List.length_cons, Option.some.injEq, Prod.mk.injEq, true_and]
      simp [List.replicate_succ]

/-! ### Claim C4 -/

/-- C4: for a schema with `max_cells ≥ 1`, inserting `max_cells + 1` distinct
keys (with schema-matching values) into a fresh leaf produces exactly one
split — the first `max_cells` inserts return no new leaf and the last returns
one — after which `left.num_cells + right.num_cells = max_cells + 1`,
`right.num_cells = (max_cells + 1) / 2` (integer division), and
`right.parent = left.parent`.  The `max_cells ≥ 1` restriction is necessary:
when `max_cells = 0` (row_size ≥ 4079) the split's first `serialize_row`
slices the cell past the 4096-byte page and the program panics (see the
counterexample). -/
theorem leaf_fill_and_split_counts (schema : Schema)
    (hpos : 1 ≤ LeafNode.max_cells schema.row_size)
    (inserts : List (Nat × List ScalarValue))
    (hlen : inserts.length = LeafNode.max_cells schema.row_size + 1)
    (hmatch : ∀ kv ∈ inserts, valuesMatch schema.feilds kv.2 = true)
    (_hnodup : (inserts.map Prod.fst).Nodup) :
    ∃ left right,
      runInserts schema LeafNode.new inserts
        = some (left,
            List.replicate (LeafNode.max_cells schema.row_size) none ++ [some right]) ∧
      left.num_cells + right.num_cells = LeafNode.max_cells schema.row_size + 1 ∧
      right.num_cells = (LeafNode.max_cells schema.row_size + 1) / 2 ∧
      right.parent = left.parent := by
  obtain ⟨left, right, hrun, hleft, hright, hpar⟩ :=
    runInserts_spec schema hpos inserts LeafNode.new hmatch
      (by rw [LeafNode.new_num_cells, hlen]; omega)
      (by intro h; rw [h] at hlen; simp at hlen)
  refine ⟨left, right, ?_, ?_, hright, hpar⟩
  · rw [hrun, hlen]
    simp
  · rw [hleft, hright]
    have : (LeafNode.max_cells schema.row_size + 1) / 2
        ≤ LeafNode.max_cells schema.row_size + 1 := Nat.div_le_self _ _
    omega

/-- Witness for C4 at the concrete schema `{b: FixedString(2037)}` and three
distinct keys. -/
theorem leaf_fill_and_split_counts_witness :
    (1 ≤ LeafNode.max_cells c4_schema.row_size) ∧
    (c4_inserts.length = LeafNode.max_cells c4_schema.row_size + 1) ∧
    (∀ kv ∈ c4_inserts, valuesMatch c4_schema.feilds kv.2 = true) ∧
    ((c4_inserts.map Prod.fst).Nodup) ∧
    (∃ left right,
      runInserts c4_schema LeafNode.new c4_inserts
        = some (left,
            List.replicate (LeafNode.max_cells c4_schema.row_size) none ++ [some right]) ∧
      left.num_cells + right.num_cells = LeafNode.max_cells c4_schema.row_size + 1 ∧
      right.num_cells = (LeafNode.max_cells c4_schema.row_size + 1) / 2 ∧
      right.parent = left.parent) :=
  ⟨by decide, by decide, by decide, by decide,
    leaf_fill_and_split_counts c4_schema (by decide) c4_inserts
      (by decide) (by decide) (by decide)⟩

/-- Counterexample to the unrestricted claim: for the schema
`{b: FixedString(4079)}` we have `max_cells = 0`, the single insert satisfies
every other hypothesis (length `max_cells + 1`, kind-matching values,
distinct keys), yet `runInserts` returns `none` — the split's first
`serialize_row` would slice bytes `14..4097` of the 4096-byte page, a panic
in the program — so no split with the claimed counts exists. -/
theorem leaf_fill_and_split_counts_counterexample :
    (c4ce_inserts.length = LeafNode.max_cells c4ce_schema.row_size + 1) ∧
    (∀ kv ∈ c4ce_inserts, valuesMatch c4ce_schema.feilds kv.2 = true) ∧
    ((c4ce_inserts.map Prod.fst).Nodup) ∧
    runInserts c4ce_schema LeafNode.new c4ce_inserts = none ∧
    ¬ ∃ left right,
      runInserts c4ce_schema LeafNode.new c4ce_inserts
        = some (left,
            List.replicate (LeafNode.max_cells c4ce_schema.row_size) none
              ++ [some right]) := by
  refine ⟨by decide, by decide, by decide, by rfl, ?_⟩
  rintro ⟨left, right, h⟩
  rw [(by rfl : runInserts c4ce_schema LeafNode.new c4ce_inserts = none)] at h
  exact absurd h (by simp)

theorem fillPage_bytes (b j : Nat) : (fillPage b).bytes j = if j < 4096 then b else 0 := rfl

theorem pagerLoop_invariant (fills : Nat → Nat) :
    ∀ (n : Nat), n ≤ TABLE_MAX_PAGE →
      ∃ p, pagerLoop fills n = Except.ok p ∧ p.pages = n ∧
        p.file.len = HEADER_SPACE + n * 4096 ∧
        ∀ i, i < n → ∀ j, j < 4096 →
          p.file.data (HEADER_SPACE + i * 4096 + j) = fills i % 256 := by
  intro n
  induction n with
  | zero =>
    intro _
    exact ⟨_, rfl, rfl, by simp [Pager.new, HEADER_SPACE], by omega⟩
  | succ n ih =>
    intro hn
    obtain ⟨p, hp, hpages, hlen, hdata⟩ := ih (by omega)
    rw [pagerLoop, hp]
    dsimp only
    simp only [writeFillFlush, Pager.page]
    rw [if_pos (by omega : p.pages ≤ n), hpages]
    simp only [Pager.cacheSet]
    rw [if_pos (by omega : n < TABLE_MAX_PAGE)]
    try dsimp only
    rw [if_pos (by omega : n < TABLE_MAX_PAGE)]
    try dsimp only
    simp only [Pager.flush_page, Pager.cacheGet]
    rw [if_pos (by omega : n < TABLE_MAX_PAGE)]
    simp only [if_true]
    try dsimp only
    simp only [HEADER_SPACE] at hlen hdata
    refine ⟨_, rfl, rfl, ?_, ?_⟩
    · dsimp only
      rw [FileM.writeAt_len, FileM.setLen_len]
      simp only [HEADER_SPACE, hpages]
      omega
    · intro i hi j hj
      dsimp only
      rw [FileM.writeAt_data, FileM.setLen_data, FileM.setLen_len]
      have hH : HEADER_SPACE = 4096 := rfl
      rw [hH]
      by_cases hin : i = n
      · subst hin
        rw [if_pos (by omega), fillPage_bytes, if_pos (by omega)]
      · have hilt : i < n := by omega
        rw [if_neg (by omega), if_pos (by omega), if_pos (by constructor <;> omega)]
        exact hdata i hilt j hj

/-! ### Claim C7 -/

/-- C7: pager persistence.  For every `n` within the page-count limit and
every assignment of distinct fill bytes, writing fill byte `fills i` into
page `i` through `Pager::page` and flushing it with `flush_page`, for
`i = 0, ..., n - 1`, leaves page `i` in the file bytes
`[HEADER_SPACE + i * 4096, HEADER_SPACE + (i + 1) * 4096)`; and a new
`Pager` over the resulting file with page count `n` returns from `page(i)`
exactly the bytes written for every `i < n`. -/
theorem pager_persistence (n : Nat) (fills : Nat → Nat) (i : Nat)
    (hn : n ≤ TABLE_MAX_PAGE) (hbyte : ∀ k, k < n → fills k < 256)
    (_hdistinct : ∀ k1, k1 < n → ∀ k2, k2 < n → fills k1 = fills k2 → k1 = k2)
    (hi : i < n) :
    ∃ p, pagerLoop fills n = Except.ok p ∧
      (∀ j, j < 4096 → p.file.data (HEADER_SPACE + i * 4096 + j) = fills i) ∧
      ∃ pg p2, (Pager.new p.file n).page i = Except.ok (pg, p2) ∧
        ∀ j, j < 4096 → pg.bytes j = fills i := by
  obtain ⟨p, hp, hpages, hlen, hdata⟩ := pagerLoop_invariant fills n hn
  have hmod : fills i % 256 = fills i := Nat.mod_eq_of_lt (hbyte i hi)
  refine ⟨p, hp, fun j hj => by rw [hdata i hi j hj, hmod], ?_⟩
  unfold Pager.page Pager.new
  rw [if_neg (by simp only; omega)]
  unfold Pager.cacheGet
  rw [if_pos (by omega : i < TABLE_MAX_PAGE)]
  dsimp only
  unfold FileM.readExact
  rw [if_pos (by
    rw [hlen]
    have : i * 4096 + 4096 ≤ n * 4096 := by
      calc i * 4096 + 4096 = (i + 1) * 4096 := by ring
        _ ≤ n * 4096 := Nat.mul_le_mul_right _ hi
    omega)]
  dsimp only
  unfold Pager.cacheSet
  rw [if_pos (by omega : i < TABLE_MAX_PAGE)]
  dsimp only
  refine ⟨_, _, rfl, ?_⟩
  intro j hj
  show (if j < 4096 then
      if j < 4096 then p.file.data (i * 4096 + HEADER_SPACE + j) % 256 else 0
    else 0) = fills i
  rw [if_pos hj, if_pos hj]
  rw [show i * 4096 + HEADER_SPACE + j = HEADER_SPACE + i * 4096 + j by omega]
  rw [hdata i hi j hj, Nat.mod_mod_of_dvd _ (dvd_refl 256), hmod]

/-- Witness for C7 at `n = 2`, fill bytes `i + 1`, reading back page 1. -/
theorem pager_persistence_witness :
    ((2 : Nat) ≤ TABLE_MAX_PAGE) ∧ (∀ k, k < 2 → k + 1 < 256) ∧
    (∀ k1, k1 < 2 → ∀ k2, k2 < 2 → k1 + 1 = k2 + 1 → k1 = k2) ∧ ((1 : Nat) < 2) ∧
    (∃ p, pagerLoop (fun k => k + 1) 2 = Except.ok p ∧
      (∀ j, j < 4096 → p.file.data (HEADER_SPACE + 1 * 4096 + j) = 1 + 1) ∧
      ∃ pg p2, (Pager.new p.file 2).page 1 = Except.ok (pg, p2) ∧
        ∀ j, j < 4096 → pg.bytes j = 1 + 1) :=
  ⟨by decide, by decide, by decide, by decide,
    pager_persistence 2 (fun k => k + 1) 1 (by decide) (by decide) (by decide) (by decide)⟩

/-! ### Machinery for claims C5 and C8 -/
theorem leBytes_length : ∀ n v, (leBytes n v).length = n := by
  intro n
  induction n with
  | zero => intro v; rfl
  | succ n ih => intro v; simp [leBytes, ih]

theorem headerBuf_eq (ser : List Nat) (j : Nat) :
    Table.headerBuf ser j = if j < ser.length then ser.getD j 0 else 0 := rfl

/-- `Table::insert` when the target page index is beyond the pager's known
page count (the growth branch of `Pager::page`): the insert succeeds, bumps
`num_rows` and the page count, stores the written page in the cache slot, and
leaves the serialized updated header in the file's reserved region. -/
theorem table_insert_growth_spec (t : Table) (vals : List ScalarValue)
    (nm : List Nat) (sch : Schema) (k : Nat) (pg' : Page)
    (hh : t.header = ⟨nm, sch, k⟩)
    (hrs : sch.row_size ≠ 0)
    (hlim : k < (PAGE_SIZE / sch.row_size) * TABLE_MAX_PAGE)
    (hgrow : (k + 1) / (PAGE_SIZE / sch.row_size) ≥ t.pages.pages)
    (hidx : (k + 1) / (PAGE_SIZE / sch.row_size) < TABLE_MAX_PAGE)
    (hw : Page.new.write_row (k % (PAGE_SIZE / sch.row_size)) sch vals = some pg')
    (hser : ¬ (serializeHeader ⟨nm, sch, k + 1⟩).length > HEADER_SPACE) :
    ∃ t', t.insert vals = Except.ok t' ∧
      t'.header = ⟨nm, sch, k + 1⟩ ∧
      t'.pages.pages = t.pages.pages + 1 ∧
      (∀ j, t'.pages.cache j =
        if j = (k + 1) / (PAGE_SIZE / sch.row_size) then some pg' else t.pages.cache j) ∧
      t'.pages.file.len ≥ HEADER_SPACE ∧
      (∀ j, j < HEADER_SPACE → t'.pages.file.data j =
        Table.headerBuf (serializeHeader ⟨nm, sch, k + 1⟩) j % 256) := by
  simp only [Table.insert, Table.max_rows, Table.rows_per_page, hh]
  rw [if_neg hrs]
  dsimp only
  rw [if_neg (by omega)]
  simp only [Pager.page]
  rw [if_pos hgrow]
  simp only [Pager.cacheSet]
  rw [if_pos hidx]
  try dsimp only
  rw [hw]
  try dsimp only
  rw [if_pos hidx]
  try dsimp only
  simp only [Pager.flush_page, Pager.cacheGet]
  rw [if_pos hidx]
  simp only [if_true]
  try dsimp only
  simp only [Table.flush_table_header]
  rw [if_neg hser]
  refine ⟨_, rfl, rfl, rfl, ?_, ?_, ?_⟩
  · intro j
    dsimp only
    by_cases hji : j = (k + 1) / (PAGE_SIZE / sch.row_size)
    · rw [if_pos hji, if_pos hji]
    · rw [if_neg hji, if_neg hji, if_neg hji]
  · dsimp only
    rw [FileM.writeAt_len]
    have := Nat.le_max_right
      ((t.pages.file.setLen ((t.pages.pages + 1) * 4096 + HEADER_SPACE)).writeAt
        ((k + 1) / (PAGE_SIZE / sch.row_size) * 4096 + HEADER_SPACE) 4096 pg'.bytes).len
      (0 + HEADER_SPACE)
    omega
  · intro j hj
    dsimp only
    rw [FileM.writeAt_data, if_pos (by omega)]
    rw [Nat.sub_zero]

/-- `Table::insert` when the target page is already cached: same result
shape, with the page count unchanged. -/
theorem table_insert_cached_spec (t : Table) (vals : List ScalarValue)
    (nm : List Nat) (sch : Schema) (k : Nat) (pg pg' : Page)
    (hh : t.header = ⟨nm, sch, k⟩)
    (hrs : sch.row_size ≠ 0)
    (hlim : k < (PAGE_SIZE / sch.row_size) * TABLE_MAX_PAGE)
    (hlt : (k + 1) / (PAGE_SIZE / sch.row_size) < t.pages.pages)
    (hidx : (k + 1) / (PAGE_SIZE / sch.row_size) < TABLE_MAX_PAGE)
    (hcache : t.pages.cache ((k + 1) / (PAGE_SIZE / sch.row_size)) = some pg)
    (hw : pg.write_row (k % (PAGE_SIZE / sch.row_size)) sch vals = some pg')
    (hser : ¬ (serializeHeader ⟨nm, sch, k + 1⟩).length > HEADER_SPACE) :
    ∃ t', t.insert vals = Except.ok t' ∧
      t'.header = ⟨nm, sch, k + 1⟩ ∧
      t'.pages.pages = t.pages.pages ∧
      (∀ j, t'.pages.cache j =
        if j = (k + 1) / (PAGE_SIZE / sch.row_size) then some pg' else t.pages.cache j) ∧
      t'.pages.file.len ≥ HEADER_SPACE ∧
      (∀ j, j < HEADER_SPACE → t'.pages.file.data j =
        Table.headerBuf (serializeHeader ⟨nm, sch, k + 1⟩) j % 256) := by
  simp only [Table.insert, Table.max_rows, Table.rows_per_page, hh]
  rw [if_neg hrs]
  dsimp only
  rw [if_neg (by omega)]
  simp only [Pager.page, Pager.cacheGet]
  rw [if_neg (by omega)]
  rw [if_pos hidx]
  try dsimp only
  rw [hcache]
  try dsimp only
  rw [hw]
  try dsimp only
  simp only [Pager.cacheSet]
  rw [if_pos hidx]
  try dsimp only
  simp only [Pager.flush_page, Pager.cacheGet]
  rw [if_pos hidx]
  simp only [if_true]
  try dsimp only
  simp only [Table.flush_table_header]
  rw [if_neg hser]
  refine ⟨_, rfl, rfl, rfl, ?_, ?_, ?_⟩
  · intro j
    rfl
  · dsimp only
    rw [FileM.writeAt_len]
    have := Nat.le_max_right
      (t.pages.file.writeAt
        ((k + 1) / (PAGE_SIZE / sch.row_size) * 4096 + HEADER_SPACE) 4096 pg'.bytes).len
      (0 + HEADER_SPACE)
    omega
  · intro j hj
    dsimp only
    rw [FileM.writeAt_data, if_pos (by omega)]
    rw [Nat.sub_zero]

/-- `Table::read` when the (row-count-derived) page is cached: returns the
decoded values and leaves the table unchanged. -/
theorem table_read_spec (t : Table) (i : Nat) (nm : List Nat) (sch : Schema)
    (k : Nat) (pg : Page) (vals : List ScalarValue)
    (hh : t.header = ⟨nm, sch, k⟩)
    (hrs : sch.row_size ≠ 0)
    (hlt : (k + 1) / (PAGE_SIZE / sch.row_size) < t.pages.pages)
    (hidx : (k + 1) / (PAGE_SIZE / sch.row_size) < TABLE_MAX_PAGE)
    (hcache : t.pages.cache ((k + 1) / (PAGE_SIZE / sch.row_size)) = some pg)
    (hr : pg.read_row (i % (PAGE_SIZE / sch.row_size)) sch = some vals) :
    t.read i = Except.ok (vals, t) := by
  simp only [Table.read, Table.rows_per_page, hh]
  rw [if_neg hrs]
  dsimp only
  simp only [Pager.page, Pager.cacheGet]
  rw [if_neg (by omega)]
  rw [if_pos hidx]
  try dsimp only
  rw [hcache]
  try dsimp only
  rw [hr]
  dsimp only
  rw [← hh]

/-- `Table::new` over a non-empty file whose reserved region deserializes to
`hdr`: the table opens with exactly that header. -/
theorem table_reopen_spec (nm : List Nat) (sch : Schema) (f : FileM)
    (hdr : TableHeader)
    (hlen : f.len ≥ HEADER_SPACE)
    (hdata : ∀ j, j < HEADER_SPACE →
      f.data j = Table.headerBuf (serializeHeader hdr) j % 256)
    (hparse : deserializeHeader
      (fun j => if j < HEADER_SPACE then
        Table.headerBuf (serializeHeader hdr) j % 256 % 256 else 0) HEADER_SPACE
      = some hdr)
    (hrs : hdr.schema.row_size ≠ 0)
    (hrpp : PAGE_SIZE / hdr.schema.row_size ≠ 0) :
    ∃ t, Table.new nm sch f = Except.ok t ∧ t.header = hdr := by
  unfold Table.new
  rw [if_neg (by
    intro h0
    rw [h0] at hlen
    exact absurd hlen (by simp [HEADER_SPACE]))]
  unfold Table.newAux
  rw [FileM.readExact_eq _ _ _ (by omega)]
  have hfun : (fun j => if j < HEADER_SPACE then f.data (0 + j) % 256 else 0)
      = (fun j => if j < HEADER_SPACE then
          Table.headerBuf (serializeHeader hdr) j % 256 % 256 else 0) := by
    funext j
    by_cases hj : j < HEADER_SPACE
    · rw [if_pos hj, if_pos hj, Nat.zero_add, hdata j hj]
    · rw [if_neg hj, if_neg hj]
  rw [hfun]
  dsimp only
  rw [hparse]
  dsimp only
  rw [if_neg hrs, if_neg hrpp]
  exact ⟨_, rfl, rfl⟩

theorem c5_ser_len (m : Nat) : (serializeHeader ⟨[116], c5_schema, m⟩).length = 46 := by
  simp [serializeHeader, serString, serDataType, c5_schema, leBytes_length]

theorem c5_step (t : Table) (k : Nat) (hh : t.header = ⟨[116], c5_schema, k⟩)
    (hp : t.pages.pages = k) (hk : k ≤ 98) :
    ∃ t', t.insert [ScalarValue.String [120]] = Except.ok t' ∧
      t'.header = ⟨[116], c5_schema, k + 1⟩ ∧ t'.pages.pages = k + 1 := by
  have hT : TABLE_MAX_PAGE = 100 := rfl
  have hrpp : PAGE_SIZE / c5_schema.row_size = 1 := rfl
  cases hpg : Page.new.write_row 0 c5_schema [ScalarValue.String [120]] with
  | none =>
    have hsome : (Page.new.write_row 0 c5_schema [ScalarValue.String [120]]).isSome
        = true := rfl
    rw [hpg] at hsome
    exact absurd hsome (by simp)
  | some pg =>
    obtain ⟨t', hins, hh', hp', _, _, _⟩ :=
      table_insert_growth_spec t [ScalarValue.String [120]] [116] c5_schema k pg hh
        (by decide)
        (by rw [hrpp, hT]; omega)
        (by rw [hrpp, hp, Nat.div_one]; omega)
        (by rw [hrpp, hT, Nat.div_one]; omega)
        (by rw [hrpp, Nat.mod_one]; exact hpg)
        (by rw [c5_ser_len]; decide)
    exact ⟨t', hins, hh', by rw [hp', hp]⟩

theorem c5_last (t : Table) (hh : t.header = ⟨[116], c5_schema, 99⟩)
    (hp : t.pages.pages = 99) :
    t.insert [ScalarValue.String [120]] = Except.error Err.panicked := by
  simp only [Table.insert, Table.max_rows, Table.rows_per_page, hh]
  rw [if_neg (by decide)]
  dsimp only
  rw [if_neg (by decide)]
  simp only [Pager.page]
  rw [if_pos (by rw [hp]; decide)]
  simp only [Pager.cacheSet]
  rw [if_neg (by decide)]

theorem c5_inv : ∀ k, k ≤ 99 →
    ∃ t, c5_iter k = Except.ok t ∧ t.header = ⟨[116], c5_schema, k⟩ ∧
      t.pages.pages = k := by
  intro k
  induction k with
  | zero =>
    intro _
    have hbase : (Table.new [116] c5_schema emptyFile).toOption.map
        (fun t => (t.header, t.pages.pages))
        = some (⟨[116], c5_schema, 0⟩, 0) := by rfl
    cases hT : Table.new [116] c5_schema emptyFile with
    | error e => rw [hT] at hbase; simp [Except.toOption] at hbase
    | ok t =>
      rw [hT] at hbase
      simp only [Except.toOption] at hbase
      simp at hbase
      exact ⟨t, by rw [c5_iter, hT], hbase.1, hbase.2⟩
  | succ k ih =>
    intro hk
    obtain ⟨t, ht, hh, hp⟩ := ih (by omega)
    obtain ⟨t', hins, hh', hp'⟩ := c5_step t k hh hp (by omega)
    refine ⟨t', ?_, hh', hp'⟩
    rw [c5_iter, ht]
    exact hins

/-- C5: the capacity-enforcement claim fails on the code.  With schema
`{b: FixedString(4096)}` (`rows_per_page() = 1`, `max_rows() = 100`), the
first 99 `Table::insert` calls succeed, but the 100th call — still within the
claimed `rows_per_page() * max_pages` capacity — ends in the panic-class
outcome instead of succeeding: `insert` computes the target page as
`(num_rows + 1) / rows_per_page = 100` (an off-by-one) and
`Pager::page(100)` indexes `cache[100]` out of bounds.  `num_rows` can
therefore never reach `max_rows`, so the claimed `RowLimit` rejection is
unreachable by successive inserts. -/
theorem table_insert_panics_at_capacity_boundary :
    (∃ t, c5_iter 99 = Except.ok t ∧ t.header.num_rows = 99 ∧
      t.max_rows = Except.ok 100) ∧
    c5_iter 100 = Except.error Err.panicked := by
  obtain ⟨t, ht, hh, hp⟩ := c5_inv 99 (by omega)
  constructor
  · refine ⟨t, ht, by rw [hh], ?_⟩
    simp only [Table.max_rows, Table.rows_per_page, hh]
    rfl
  · rw [show (100 : Nat) = 99 + 1 from rfl, c5_iter, ht]
    exact c5_last t hh hp

theorem c8_ser_len (m : Nat) : (serializeHeader ⟨[116], c8_schema, m⟩).length = 59 := by
  simp [serializeHeader, serString, serDataType, c8_schema, leBytes_length]

set_option maxRecDepth 8000 in
/-- C8: the full scenario on a fresh table with schema
`{a: Integer64, b: FixedString(10)}`: insert `(1, "hi")`, insert
`(2, "there")`, then `read(0)` returns `(1, "hi")` and `read(1)` returns
`(2, "there")` (leaving the table unchanged), and reopening the resulting
file deserializes a header with `num_rows = 2` from the reserved region. -/
theorem table_scenario_insert_read_reopen :
    ∃ t0 t1 t2 t5 : Table,
      Table.new [116] c8_schema emptyFile = Except.ok t0 ∧
      t0.insert c8_v1 = Except.ok t1 ∧
      t1.insert c8_v2 = Except.ok t2 ∧
      t2.read 0 = Except.ok (c8_v1, t2) ∧
      t2.read 1 = Except.ok (c8_v2, t2) ∧
      Table.new [116] c8_schema t2.pages.file = Except.ok t5 ∧
      t5.header.num_rows = 2 := by
  have hrpp : PAGE_SIZE / c8_schema.row_size = 227 := rfl
  have hTM : TABLE_MAX_PAGE = 100 := rfl
  have e1 : (0 + 1) / (PAGE_SIZE / c8_schema.row_size) = 0 := rfl
  have e2 : (1 + 1) / (PAGE_SIZE / c8_schema.row_size) = 0 := rfl
  have e3 : (2 + 1) / (PAGE_SIZE / c8_schema.row_size) = 0 := rfl
  -- the fresh table
  have hbase : (Table.new [116] c8_schema emptyFile).toOption.map
      (fun t => (t.header, t.pages.pages)) = some (⟨[116], c8_schema, 0⟩, 0) := by rfl
  cases hT0 : Table.new [116] c8_schema emptyFile with
  | error e => rw [hT0] at hbase; simp [Except.toOption] at hbase
  | ok t0 =>
  rw [hT0] at hbase
  simp only [Except.toOption] at hbase
  simp at hbase
  obtain ⟨h0h, h0p⟩ := hbase
  -- the two page writes and their read-backs, evaluated at the page level
  have hF1 : (c8_pg1.bind (fun pg => pg.write_row 1 c8_schema c8_v2)).bind
      (fun pg => pg.read_row 0 c8_schema) = some c8_v1 := by rfl
  have hF2 : (c8_pg1.bind (fun pg => pg.write_row 1 c8_schema c8_v2)).bind
      (fun pg => pg.read_row 1 c8_schema) = some c8_v2 := by rfl
  cases hpg1 : c8_pg1 with
  | none => rw [hpg1] at hF1; simp at hF1
  | some pg1 =>
  rw [hpg1] at hF1 hF2
  simp only [Option.some_bind] at hF1 hF2
  cases hpg2 : pg1.write_row 1 c8_schema c8_v2 with
  | none => rw [hpg2] at hF1; simp at hF1
  | some pg2 =>
  rw [hpg2] at hF1 hF2
  simp only [Option.some_bind] at hF1 hF2
  unfold c8_pg1 at hpg1
  -- first insert: growth branch at page 0
  obtain ⟨t1, hins1, h1h, h1p, h1c, _, _⟩ :=
    table_insert_growth_spec t0 c8_v1 [116] c8_schema 0 pg1 h0h
      (by decide)
      (by rw [hrpp, hTM]; omega)
      (by rw [h0p]; omega)
      (by rw [e1]; decide)
      (by rw [hrpp, Nat.zero_mod]; exact hpg1)
      (by rw [c8_ser_len]; decide)
  -- second insert: cached branch at page 0
  obtain ⟨t2, hins2, h2h, h2p, h2c, h2len, h2data⟩ :=
    table_insert_cached_spec t1 c8_v2 [116] c8_schema 1 pg1 pg2 h1h
      (by decide)
      (by rw [hrpp, hTM]; omega)
      (by rw [e2, h1p, h0p]; omega)
      (by rw [e2]; decide)
      (by rw [e2, h1c 0, if_pos e1.symm])
      (by rw [hrpp]; exact hpg2)
      (by rw [c8_ser_len]; decide)
  have h2cache : t2.pages.cache ((2 + 1) / (PAGE_SIZE / c8_schema.row_size)) = some pg2 := by
    rw [e3, h2c 0, if_pos e2.symm]
  have h2pages : (2 + 1) / (PAGE_SIZE / c8_schema.row_size) < t2.pages.pages := by
    rw [e3, h2p, h1p, h0p]
    omega
  -- the two reads on t2
  have hread0 : t2.read 0 = Except.ok (c8_v1, t2) :=
    table_read_spec t2 0 [116] c8_schema 2 pg2 c8_v1 h2h (by decide) h2pages
      (by rw [e3]; decide) h2cache
      (by rw [hrpp]; exact hF1)
  have hread1 : t2.read 1 = Except.ok (c8_v2, t2) :=
    table_read_spec t2 1 [116] c8_schema 2 pg2 c8_v2 h2h (by decide) h2pages
      (by rw [e3]; decide) h2cache
      (by rw [hrpp]; exact hF2)
  -- reopen over the final file
  obtain ⟨t5, hT5, h5h⟩ :=
    table_reopen_spec [116] c8_schema t2.pages.file ⟨[116], c8_schema, 2⟩
      h2len h2data (by rfl) (by decide) (by decide)
  exact ⟨t0, t1, t2, t5, rfl, hins1, hins2, hread0, hread1, hT5, by rw [h5h]⟩

/-- C1: the claimed sorted invariant and find correctness fail on the code.
Inserting key 0 and then key 1 (no duplicates) into a fresh leaf leaves the
cell key array as `[1, 0]` — not ascending, since cell 0 holds key 1 > key 0's
cell value 0 — and `binary_search` (the leaf's `find`) returns `none` for the
previously inserted key 1.  The cause: `leaf_node_split_and_insert` takes its
insertion index from `binary_search`, which returns `None` on a miss, and
falls back to index 0, so every fresh key is inserted at the front. -/
theorem leaf_insert_breaks_sorted_invariant :
    c1_leaf.map (fun l =>
        (l.num_cells, l.key 0 8, l.key 1 8, l.binary_search 1 8, l.binary_search 0 8))
      = some (2, 1, 0, none, some 1) ∧ ¬ (1 : Nat) ≤ 0 := by
  exact ⟨rfl, by decide⟩

/-- C2: the round-trip codec claim fails on the code for value sequences
containing an empty string followed by another field.  With schema
`{b: FixedString(10), a: Integer64}` and values `("", 5)` (the empty string is
within the `10 - 1` byte capacity), both the page-level codec
(`Page::write_row`/`read_row`) and the leaf-cell codec
(`LeafNode::serialize_row`/`read_row`) decode the encoding of `("", 5)` as
`("", 0)` ≠ `("", 5)`: the decoder skips `offset += size` when the length
byte is 0 and reads the number out of the string's slot. -/
theorem row_codec_roundtrip_fails_on_empty_string :
    ((Page.new.write_row 0 c2_schema c2_values).bind (fun pg => pg.read_row 0 c2_schema)
        = some [ScalarValue.String [], ScalarValue.Number 0]) ∧
    ((LeafNode.new.serialize_row 0 c2_schema 7 c2_values).bind
        (fun l => l.read_row 0 c2_schema)
        = some (7, [ScalarValue.String [], ScalarValue.Number 0])) ∧
    [ScalarValue.String [], ScalarValue.Number 0] ≠ c2_values := by
  refine ⟨rfl, rfl, by decide⟩

/-- C3: the split redistribution claim fails on the code.  The full leaf holds
keys `[0, 1]`; inserting the fresh key 2 splits, and afterwards the left leaf
holds keys `[2, 2]` and the right leaf holds key `[2]`: the original entries
with keys 0 and 1 are lost from the left half and the new entry is
triplicated, instead of the halves containing exactly `{0, 1, 2}`.  The
cause: the miss-fallback insertion index 0 combined with the first split
loop's ascending in-place `copy_within(i - 1, i)`, which propagates the
just-written cell instead of shifting the old cells. -/
theorem leaf_split_loses_and_duplicates_entries :
    (c3_full.map (fun l => (l.num_cells, l.key 0 2037, l.key 1 2037)) = some (2, 0, 1)) ∧
    (c3_split.map (fun p => (p.1.num_cells, p.1.key 0 2037, p.1.key 1 2037,
        p.2.map (fun r => (r.num_cells, r.key 0 2037)))) = some (2, 2, 2, some (1, 2))) ∧
    LeafNode.max_cells c3_schema.row_size = 2 := by
  exact ⟨rfl, rfl, rfl⟩

/-- C6: the claim that an over-long string insert fails with `ParseError`
fails on the code.  `Statement::insert_statement` checks only arity and value
kind, so the 12-byte string for a `FixedString(10)` field parses successfully;
`Page::write_row` then stores length byte 12 but only 9 payload bytes
(`(&mut bytes[1..]).write(..)` silently caps at the slot), so the row is
silently truncated and its stored length lies — while bytes outside the
field's slot (offsets ≥ 10) are indeed untouched. -/
theorem long_string_insert_is_not_rejected :
    (insert_statement c6_input c6_schema
        = Except.ok [ScalarValue.String (List.replicate 12 97)]) ∧
    ((Page.new.write_row 0 c6_schema [ScalarValue.String (List.replicate 12 97)]).map
        (fun pg => (pg.bytes 0, readList pg.bytes 1 9, readList pg.bytes 10 6))
      = some (12, List.replicate 9 97, List.replicate 6 0)) ∧
    (List.replicate 12 97).length > 10 - 1 := by
  refine ⟨rfl, rfl, by decide⟩

/-! ### Claim C9 -/

/-- C10: neither `Pager::page` nor `Pager::flush_page` validates the page
index against the fixed cache capacity `TABLE_MAX_PAGE = 100`: for every
index at or beyond it, both calls end in the panic-class outcome (the
unchecked `self.cache[index]` array access) rather than a typed error. -/
theorem pager_unchecked_cache_index (p : Pager) (index : Nat)
    (h : TABLE_MAX_PAGE ≤ index) :
    p.page index = Except.error Err.panicked ∧
    p.flush_page index = Except.error Err.panicked := by
  have hnot : ¬ index < TABLE_MAX_PAGE := Nat.not_lt.mpr h
  constructor
  · unfold Pager.page
    by_cases hp : index ≥ p.pages
    · rw [if_pos hp]
      simp [Pager.cacheSet, hnot]
    · rw [if_neg hp]
      simp [Pager.cacheGet, hnot]
  · unfold Pager.flush_page
    simp [Pager.cacheGet, hnot]

/-- Witness for C10 at the concrete index 100 on a fresh pager. -/
theorem pager_unchecked_cache_index_witness :
    TABLE_MAX_PAGE ≤ 100 ∧
    ((Pager.new ⟨0, fun _ => 0⟩ 0).page 100 = Except.error Err.panicked ∧
     (Pager.new ⟨0, fun _ => 0⟩ 0).flush_page 100 = Except.error Err.panicked) :=
  ⟨by decide, pager_unchecked_cache_index (Pager.new ⟨0, fun _ => 0⟩ 0) 100 (by decide)⟩

end ScalarDB
